import Mathlib

/-!
Verification development for the Checkers-2 rules engine.

The definitions below are a shallow embedding of the TypeScript sources:
  * `src/game.ts`        — the data model (types)
  * `src/gameLogic.ts`   — move generation / validation, capture, win detection
  * `src/GameContext.tsx` — the game state machine (React state modelled as
                            explicit state passing)
  * `src/aiService.ts`   — the AI decision engine

JavaScript semantics that matter here and how they are modelled:
  * `board[r][c]` where `board[r]` is `undefined` (row index out of the array)
    throws a TypeError.  Partial functions therefore live in `Except Unit`;
    `.error ()` marks a thrown exception.
  * An in-range row with an out-of-range column yields `undefined` (not
    `null`).  A cell read therefore produces `Option Cell` where `none` is
    JavaScript `undefined` and `some none` is JavaScript `null` (empty
    square); `some (some p)` is a piece.
  * `x !== null` is true for `undefined`; `x?.player` is `undefined` for both
    `null` and `undefined`; `undefined.player` (no `?.`) throws.
  * `Math.random()`-driven choices are modelled by an arbitrary natural
    number argument reduced mod the list length, which reaches exactly the
    indices JavaScript can produce.
-/

namespace Checkers2

/-! ## Data model (src/game.ts) -/

inductive PlayerColor : Type
  | red
  | blue
deriving DecidableEq, Repr

inductive PieceType : Type
  | normal
  | bagel
  | pancake
  | bomb
  | vinyl
  | flyingDisk
deriving DecidableEq, Repr

inductive GamePhase : Type
  | menu
  | draft
  | placement
  | play
  | gameOver
deriving DecidableEq, Repr

structure Square : Type where
  row : Int
  col : Int
deriving DecidableEq, Repr

structure Piece : Type where
  id : String
  type : PieceType
  player : PlayerColor
  crowned : Bool
  position : Square
deriving DecidableEq, Repr

/-- `Move` from src/game.ts; the source fields `from` and `to` are
`fr` and `toSq` here (both are reserved tokens in Lean). -/
structure Move : Type where
  piece : Piece
  fr : Square
  toSq : Square
  captured : Option Piece
deriving DecidableEq, Repr

structure WinResult : Type where
  gameOver : Bool
  winner : Option PlayerColor
deriving DecidableEq, Repr

structure CaptureResult : Type where
  capturedPiece : Option Piece
  capturedSquare : Option Square
deriving DecidableEq, Repr

/-- `Record<PlayerColor, T>` from the source. -/
structure PlayerRec (α : Type) : Type where
  red : α
  blue : α
deriving DecidableEq, Repr

structure PieceSelection : Type where
  type : PieceType
  count : Int
  max : Int
deriving DecidableEq, Repr

/-- A board cell: JavaScript `Piece | null`. -/
abbrev Cell : Type := Option Piece

/-- The board `(Piece | null)[][]`, kept as the literal array of rows so that
JavaScript indexing behaviour (undefined rows, thrown dereferences) is
representable. -/
abbrev BoardArr : Type := List (List Cell)

structure GameState : Type where
  phase : GamePhase
  currentPlayer : PlayerColor
  board : BoardArr
  scores : PlayerRec Int
  capturedPieces : PlayerRec (List Piece)
  moveHistory : List Move
  pieceCounts : PlayerRec Int
  gameActive : Bool
deriving DecidableEq, Repr

/-! ## JavaScript array semantics -/

/-- JavaScript array indexing `l[i]`: `undefined` (here `none`) when the index
is negative or beyond the end. -/
def jsIndex {α : Type} (l : List α) (i : Int) : Option α :=
  if i < 0 then none else l.get? i.toNat

/-- `board[r][c]`.  A missing row makes the column dereference throw
(`.error ()`); a missing column inside an existing row is `undefined`
(`.ok none`). -/
def readCell (b : BoardArr) (r c : Int) : Except Unit (Option Cell) :=
  match jsIndex b r with
  | none => .error ()
  | some rowArr => .ok (jsIndex rowArr c)

/-- `newBoard[r][c] = v`.  A missing row throws.  (JavaScript would let an
out-of-range column grow the row; no code path exercised by the claims writes
outside an existing row, and such a write is modelled as a no-op via
`List.set`.) -/
def setCell (b : BoardArr) (r c : Int) (v : Cell) : Except Unit BoardArr :=
  match jsIndex b r with
  | none => .error ()
  | some rowArr =>
    if c < 0 then .ok b
    else .ok (b.set r.toNat (rowArr.set c.toNat v))

/-- JavaScript `x !== null` on a possibly-undefined cell read. -/
def neNull (v : Option Cell) : Bool :=
  match v with
  | some none => false
  | _ => true

/-- JavaScript `x?.player` on a possibly-undefined cell read:
`undefined` for `null`/`undefined`, the owner otherwise. -/
def playerOfCell (v : Option Cell) : Option PlayerColor :=
  match v with
  | some (some p) => some p.player
  | _ => none

/-- Bounds test used throughout src/gameLogic.ts:
`r >= 0 && r < 8 && c >= 0 && c < 8`. -/
def inBounds (r c : Int) : Bool :=
  decide (0 ≤ r ∧ r < 8 ∧ 0 ≤ c ∧ c < 8)

/-! ## src/gameLogic.ts -/

/-- `isValidNormalMove` (src/gameLogic.ts lines 180-213).  The midpoint read
`board[midRow][midCol]` happens before the returned conjunction is evaluated;
`midPiece.player` on an `undefined` midpiece throws, but only when the
short-circuiting `&&` reaches it. -/
def isValidNormalMove (board : BoardArr) (fr toSq : Square) (piece : Piece) :
    Except Unit Bool :=
  let rowDiff := toSq.row - fr.row
  let colDiff := toSq.col - fr.col
  let absRowDiff := rowDiff.natAbs
  let absColDiff := colDiff.natAbs
  let isForwardMove :=
    decide ((piece.player = PlayerColor.red ∧ rowDiff > 0) ∨
            (piece.player = PlayerColor.blue ∧ rowDiff < 0))
  if absRowDiff = 1 ∧ absColDiff = 1 then
    .ok (piece.crowned || isForwardMove)
  else if absRowDiff = 2 ∧ absColDiff = 2 then
    let midRow := fr.row + rowDiff / 2
    let midCol := fr.col + colDiff / 2
    match readCell board midRow midCol with
    | .error e => .error e
    | .ok midPiece =>
      if piece.crowned || isForwardMove then
        match midPiece with
        | none => .error ()
        | some none => .ok false
        | some (some mid) => .ok (decide (mid.player ≠ piece.player))
      else
        .ok false
  else
    .ok false

/-- `isValidBagelMove` (src/gameLogic.ts lines 215-230): normal rules only;
the bagel's special history-based capture is not implemented here. -/
def isValidBagelMove (board : BoardArr) (fr toSq : Square) (piece : Piece) :
    Except Unit Bool :=
  match isValidNormalMove board fr toSq piece with
  | .error e => .error e
  | .ok b => if b then .ok true else .ok false

/-- `isValidPancakeMove` (src/gameLogic.ts lines 232-262). -/
def isValidPancakeMove (board : BoardArr) (fr toSq : Square) (piece : Piece) :
    Except Unit Bool :=
  let rowDiff := toSq.row - fr.row
  let colDiff := toSq.col - fr.col
  let absRowDiff := rowDiff.natAbs
  let absColDiff := colDiff.natAbs
  match isValidNormalMove board fr toSq piece with
  | .error e => .error e
  | .ok true => .ok true
  | .ok false =>
    if absRowDiff = 0 ∧ absColDiff = 1 then
      match readCell board toSq.row toSq.col with
      | .error e => .error e
      | .ok (some none) => .ok true
      | .ok _ => .ok false
    else if absRowDiff = 0 ∧ absColDiff = 2 then
      let midCol := fr.col + colDiff / 2
      match readCell board fr.row midCol with
      | .error e => .error e
      | .ok none => .error ()
      | .ok (some none) => .ok false
      | .ok (some (some mid)) => .ok (decide (mid.player ≠ piece.player))
    else
      .ok false

/-- `isValidMove` (src/gameLogic.ts lines 3-30).  Note the source checks
`board[toSq.row][toSq.col] !== null` before the bounds check, so an out-of-range
destination row throws. -/
def isValidMove (board : BoardArr) (fr toSq : Square) (piece : Piece) :
    Except Unit Bool :=
  match readCell board toSq.row toSq.col with
  | .error e => .error e
  | .ok v =>
    if neNull v then .ok false
    else if decide (toSq.row < 0 ∨ toSq.row > 7 ∨ toSq.col < 0 ∨ toSq.col > 7) then
      .ok false
    else
      match piece.type with
      | .normal => isValidNormalMove board fr toSq piece
      | .bagel => isValidBagelMove board fr toSq piece
      | .pancake => isValidPancakeMove board fr toSq piece
      | _ => .ok false

/-- One diagonal/lateral capture candidate as built in the generator loops. -/
structure CaptureCand : Type where
  midRow : Int
  midCol : Int
  endRow : Int
  endCol : Int
deriving DecidableEq, Repr

/-- The `for (const move of diagonalMoves)` / `possibleMoves` filter loop in
`getNormalMoves` and `getPancakeMoves`: keep in-bounds empty squares. -/
def filterEmptyIn (board : BoardArr) : List Square → Except Unit (List Square)
  | [] => .ok []
  | m :: rest =>
    if inBounds m.row m.col then
      match readCell board m.row m.col with
      | .error e => .error e
      | .ok (some none) =>
        match filterEmptyIn board rest with
        | .error e => .error e
        | .ok ms => .ok (m :: ms)
      | .ok _ => filterEmptyIn board rest
    else
      filterEmptyIn board rest

/-- The capture-candidate filter loops in `getNormalMoves` and
`getPancakeMoves`: the landing square is bounds-checked, then the unguarded
midpoint read `board[move.midRow][move.midCol]` happens (throwing when the
midpoint row is off the array), then `!== null` / `?.player` / landing
emptiness. -/
def filterCaptures (board : BoardArr) (piece : Piece) :
    List CaptureCand → Except Unit (List Square)
  | [] => .ok []
  | cand :: rest =>
    if inBounds cand.endRow cand.endCol then
      match readCell board cand.midRow cand.midCol with
      | .error e => .error e
      | .ok midv =>
        if neNull midv && decide (playerOfCell midv ≠ some piece.player) then
          match readCell board cand.endRow cand.endCol with
          | .error e => .error e
          | .ok (some none) =>
            match filterCaptures board piece rest with
            | .error e => .error e
            | .ok ms => .ok (⟨cand.endRow, cand.endCol⟩ :: ms)
          | .ok _ => filterCaptures board piece rest
        else
          filterCaptures board piece rest
    else
      filterCaptures board piece rest

/-- The forward direction of `getNormalMoves`: `piece.player === "red" ? 1 : -1`. -/
def directionOf (piece : Piece) : Int :=
  if piece.player = PlayerColor.red then 1 else -1

/-- The `diagonalMoves` array of `getNormalMoves` (two forward diagonal
steps, plus the two backward ones when crowned). -/
def diagonalMovesOf (piece : Piece) : List Square :=
  let row := piece.position.row
  let col := piece.position.col
  let direction := directionOf piece
  [⟨row + direction, col - 1⟩, ⟨row + direction, col + 1⟩] ++
  (if piece.crowned then
    [⟨row - direction, col - 1⟩, ⟨row - direction, col + 1⟩]
  else [])

/-- The `captureMoves` array of `getNormalMoves`. -/
def captureMovesOf (piece : Piece) : List CaptureCand :=
  let row := piece.position.row
  let col := piece.position.col
  let direction := directionOf piece
  [⟨row + direction, col - 1, row + 2 * direction, col - 2⟩,
   ⟨row + direction, col + 1, row + 2 * direction, col + 2⟩] ++
  (if piece.crowned then
    [⟨row - direction, col - 1, row - 2 * direction, col - 2⟩,
     ⟨row - direction, col + 1, row - 2 * direction, col + 2⟩]
  else [])

/-- `getNormalMoves` (src/gameLogic.ts lines 32-91). -/
def getNormalMoves (board : BoardArr) (piece : Piece) :
    Except Unit (List Square) :=
  match filterEmptyIn board (diagonalMovesOf piece) with
  | .error e => .error e
  | .ok moves =>
    match filterCaptures board piece (captureMovesOf piece) with
    | .error e => .error e
    | .ok caps => .ok (moves ++ caps)

/-- `isValidDiagonalMove` (src/gameLogic.ts lines 364-391): any diagonal
displacement, restricted for non-crowned pieces to the forward row
direction. -/
def isValidDiagonalMove (fr toSq : Square) (crowned : Bool)
    (player : PlayerColor) : Bool :=
  let rowDiff := toSq.row - fr.row
  let colDiff := toSq.col - fr.col
  if rowDiff.natAbs ≠ colDiff.natAbs then false
  else if !crowned &&
      decide ((player = PlayerColor.red ∧ rowDiff < 0) ∨
              (player = PlayerColor.blue ∧ rowDiff > 0)) then false
  else true

/-- `getBagelMoves` (src/gameLogic.ts lines 93-122): the normal moves plus,
when the last recorded move was the opponent's and its origin is diagonally
reachable and currently empty, that origin square. -/
def getBagelMoves (board : BoardArr) (piece : Piece)
    (moveHistory : List Move) : Except Unit (List Square) :=
  match getNormalMoves board piece with
  | .error e => .error e
  | .ok normalMoves =>
    match moveHistory.getLast? with
    | none => .ok (normalMoves ++ [])
    | some lastMove =>
      if lastMove.piece.player ≠ piece.player then
        if isValidDiagonalMove piece.position lastMove.fr piece.crowned
            piece.player then
          match readCell board lastMove.fr.row lastMove.fr.col with
          | .error e => .error e
          | .ok (some none) => .ok (normalMoves ++ [lastMove.fr])
          | .ok _ => .ok (normalMoves ++ [])
        else .ok (normalMoves ++ [])
      else .ok (normalMoves ++ [])

/-- The `possibleMoves` array of `getPancakeMoves` (src/gameLogic.ts lines
124-178): all four diagonal steps plus the two lateral steps. -/
def pancakePossibleMovesOf (piece : Piece) : List Square :=
  let row := piece.position.row
  let col := piece.position.col
  [⟨row + 1, col + 1⟩, ⟨row + 1, col - 1⟩,
   ⟨row - 1, col + 1⟩, ⟨row - 1, col - 1⟩,
   ⟨row, col + 1⟩, ⟨row, col - 1⟩]

/-- The `captureDirections` array of `getPancakeMoves`. -/
def pancakeCaptureDirectionsOf (piece : Piece) : List CaptureCand :=
  let row := piece.position.row
  let col := piece.position.col
  [⟨row + 1, col + 1, row + 2, col + 2⟩,
   ⟨row + 1, col - 1, row + 2, col - 2⟩,
   ⟨row - 1, col + 1, row - 2, col + 2⟩,
   ⟨row - 1, col - 1, row - 2, col - 2⟩,
   ⟨row, col + 1, row, col + 2⟩,
   ⟨row, col - 1, row, col - 2⟩]

/-- `getPancakeMoves` (src/gameLogic.ts lines 124-178). -/
def getPancakeMoves (board : BoardArr) (piece : Piece) :
    Except Unit (List Square) :=
  match filterEmptyIn board (pancakePossibleMovesOf piece) with
  | .error e => .error e
  | .ok moves =>
    match filterCaptures board piece (pancakeCaptureDirectionsOf piece) with
    | .error e => .error e
    | .ok caps => .ok (moves ++ caps)

/-- `handleCapture` (src/gameLogic.ts lines 264-300). -/
def handleCapture (board : BoardArr) (fr toSq : Square) (piece : Piece) :
    Except Unit CaptureResult :=
  let rowDiff := toSq.row - fr.row
  let colDiff := toSq.col - fr.col
  let absRowDiff := rowDiff.natAbs
  let absColDiff := colDiff.natAbs
  if (absRowDiff = 2 ∧ absColDiff = 2) ∨
      (piece.type = PieceType.pancake ∧ absRowDiff = 0 ∧ absColDiff = 2) then
    let midRow := fr.row + rowDiff.sign * (if absRowDiff > 0 then 1 else 0)
    let midCol := fr.col + colDiff.sign * 1
    match readCell board midRow midCol with
    | .error e => .error e
    | .ok (some (some capturedPiece)) =>
      if capturedPiece.player ≠ piece.player then
        .ok ⟨some capturedPiece, some ⟨midRow, midCol⟩⟩
      else
        .ok ⟨none, none⟩
    | .ok _ => .ok ⟨none, none⟩
  else
    .ok ⟨none, none⟩

/-- The per-piece move dispatch used by `checkWinCondition` (history passed as
`[]` there), `GameContext.getValidMovesForPiece` and the claims' notion of
"the Move Generator's output". -/
def generatorMoves (board : BoardArr) (moveHistory : List Move)
    (piece : Piece) : Except Unit (List Square) :=
  match piece.type with
  | .normal => getNormalMoves board piece
  | .bagel => getBagelMoves board piece moveHistory
  | .pancake => getPancakeMoves board piece
  | _ => .ok []

/-- The row-major square enumeration `for row in 0..7, for col in 0..7`. -/
def allSquares : List (Int × Int) :=
  (List.range 8).flatMap fun r => (List.range 8).map fun c => ((r : Int), (c : Int))

/-- The scan loop of `checkWinCondition` (src/gameLogic.ts lines 316-358),
with the two `hasMoves` accumulators and the early exit once both players
are known to have a move. -/
def scanWin (board : BoardArr) :
    List (Int × Int) → Bool → Bool → Except Unit WinResult
  | [], redHasMoves, blueHasMoves =>
    if !redHasMoves then .ok ⟨true, some PlayerColor.blue⟩
    else if !blueHasMoves then .ok ⟨true, some PlayerColor.red⟩
    else .ok ⟨false, none⟩
  | (row, col) :: rest, redHasMoves, blueHasMoves =>
    match readCell board row col with
    | .error e => .error e
    | .ok (some (some piece)) =>
      match generatorMoves board [] piece with
      | .error e => .error e
      | .ok moves =>
        let hasAny := decide (moves.length > 0)
        let flags :=
          if decide (piece.player = PlayerColor.red) && hasAny then
            (true, blueHasMoves)
          else if decide (piece.player = PlayerColor.blue) && hasAny then
            (redHasMoves, true)
          else (redHasMoves, blueHasMoves)
        if flags.1 && flags.2 then .ok ⟨false, none⟩
        else scanWin board rest flags.1 flags.2
    | .ok _ => scanWin board rest redHasMoves blueHasMoves

/-- `checkWinCondition` (src/gameLogic.ts lines 302-362): piece-count
exhaustion first, then the move-availability scan. -/
def checkWinCondition (board : BoardArr) (pieceCounts : PlayerRec Int) :
    Except Unit WinResult :=
  if pieceCounts.red = 0 then .ok ⟨true, some PlayerColor.blue⟩
  else if pieceCounts.blue = 0 then .ok ⟨true, some PlayerColor.red⟩
  else scanWin board allSquares false false

/-! ## src/GameContext.tsx

React `useState` is modelled as explicit state passing: every handler maps
the provider's state (`ContextState`) to a new one, in `Except Unit` where a
handler can throw. -/

/-- The provider's full state: `gameState`, `selectedPiece`, `validMoves`
and `pieceSelections`. -/
structure ContextState : Type where
  gameState : GameState
  selectedPiece : Option Piece
  validMoves : List Square
  pieceSelections : PlayerRec (List PieceSelection)
deriving DecidableEq, Repr

/-- `TOTAL_PIECES_PER_PLAYER` (src/GameContext.tsx line 47). -/
def TOTAL_PIECES_PER_PLAYER : Int := 12

/-- `initializeEmptyBoard` (src/GameContext.tsx lines 79-88): the loops
produce an 8×8 grid of `null`. -/
def emptyBoard : BoardArr :=
  List.replicate 8 (List.replicate 8 (none : Cell))

/-- The roster total `selections.reduce((sum, s) => sum + s.count, 0)`. -/
def draftTotal (selections : List PieceSelection) : Int :=
  selections.foldl (fun sum selection => sum + selection.count) 0

/-- `PlayerRec` read by player colour (JS `record[player]`). -/
def PlayerRec.get {α : Type} (r : PlayerRec α) : PlayerColor → α
  | .red => r.red
  | .blue => r.blue

/-- `PlayerRec` update at a player colour (JS `record[player] = v`). -/
def PlayerRec.set {α : Type} (r : PlayerRec α) (c : PlayerColor) (v : α) :
    PlayerRec α :=
  match c with
  | .red => { r with red := v }
  | .blue => { r with blue := v }

/-- `finishDraft` (src/GameContext.tsx lines 218-242): guard on both roster
totals, then move to the Placement phase over an empty board. -/
def finishDraft (s : ContextState) : ContextState :=
  let redTotal := draftTotal s.pieceSelections.red
  let blueTotal := draftTotal s.pieceSelections.blue
  if redTotal ≠ TOTAL_PIECES_PER_PLAYER ∨ blueTotal ≠ TOTAL_PIECES_PER_PLAYER then
    s
  else
    { s with
      gameState :=
        { s.gameState with
          phase := GamePhase.placement
          board := emptyBoard
          gameActive := true
          pieceCounts := ⟨redTotal, blueTotal⟩ } }

/-- `placePiece` (src/GameContext.tsx lines 245-263): only the phase is
checked; the piece is written at the named square unconditionally. -/
def placePiece (s : ContextState) (piece : Piece) (row col : Int) :
    Except Unit ContextState :=
  if s.gameState.phase ≠ GamePhase.placement then .ok s
  else
    let placedPiece : Piece := { piece with position := ⟨row, col⟩ }
    match setCell s.gameState.board row col (some placedPiece) with
    | .error e => .error e
    | .ok newBoard =>
      .ok { s with gameState := { s.gameState with board := newBoard } }

/-- `finishPlacement` (src/GameContext.tsx lines 266-274). -/
def finishPlacement (s : ContextState) : ContextState :=
  { s with
    gameState :=
      { s.gameState with
        phase := GamePhase.play
        currentPlayer := PlayerColor.red } }

/-- `getValidMovesForPiece` (src/GameContext.tsx lines 397-412): the
per-variant generator dispatch over the current board and history. -/
def getValidMovesForPieceCtx (gs : GameState) (piece : Piece) :
    Except Unit (List Square) :=
  generatorMoves gs.board gs.moveHistory piece

/-- `selectPiece` (src/GameContext.tsx lines 276-284). -/
def selectPiece (s : ContextState) (piece : Piece) :
    Except Unit ContextState :=
  if piece.player ≠ s.gameState.currentPlayer ∨ s.gameState.gameActive = false then
    .ok s
  else
    match getValidMovesForPieceCtx s.gameState piece with
    | .error e => .error e
    | .ok moves => .ok { s with selectedPiece := some piece, validMoves := moves }

/-- `deselectPiece` (src/GameContext.tsx lines 286-289). -/
def deselectPiece (s : ContextState) : ContextState :=
  { s with selectedPiece := none, validMoves := [] }

/-- `movePiece` (src/GameContext.tsx lines 291-375): guards (selection,
activity, membership of the destination in `validMoves`), then capture
resolution, board update with crowning, history append, count update, win
check and turn handoff, committed as one state replacement. -/
def movePiece (s : ContextState) (row col : Int) : Except Unit ContextState :=
  match s.selectedPiece with
  | none => .ok s
  | some selectedPiece =>
    if s.gameState.gameActive = false then .ok s
    else
      let board := s.gameState.board
      let currentPlayer := s.gameState.currentPlayer
      let pieceRow := selectedPiece.position.row
      let pieceCol := selectedPiece.position.col
      if !(s.validMoves.any fun m => decide (m.row = row) && decide (m.col = col)) then
        .ok s
      else
        match handleCapture board ⟨pieceRow, pieceCol⟩ ⟨row, col⟩ selectedPiece with
        | .error e => .error e
        | .ok captureResult =>
          let newScores :=
            if captureResult.capturedPiece.isSome then
              s.gameState.scores.set currentPlayer
                (s.gameState.scores.get currentPlayer + 1)
            else s.gameState.scores
          let newCapturedPieces :=
            match captureResult.capturedPiece with
            | some cp =>
              s.gameState.capturedPieces.set currentPlayer
                (s.gameState.capturedPieces.get currentPlayer ++ [cp])
            | none => s.gameState.capturedPieces
          match setCell board pieceRow pieceCol none with
          | .error e => .error e
          | .ok boardCleared =>
            let movedPiece :=
              if (currentPlayer = PlayerColor.red ∧ row = 7) ∨
                  (currentPlayer = PlayerColor.blue ∧ row = 0) then
                { selectedPiece with position := ⟨row, col⟩, crowned := true }
              else
                { selectedPiece with position := ⟨row, col⟩ }
            match setCell boardCleared row col (some movedPiece) with
            | .error e => .error e
            | .ok newBoard =>
              let newMoveHistory :=
                s.gameState.moveHistory ++
                  [⟨selectedPiece, ⟨pieceRow, pieceCol⟩, ⟨row, col⟩,
                    captureResult.capturedPiece⟩]
              let newPieceCounts : PlayerRec Int :=
                ⟨s.gameState.pieceCounts.red -
                  (if currentPlayer = PlayerColor.blue ∧
                      captureResult.capturedPiece.isSome then 1 else 0),
                 s.gameState.pieceCounts.blue -
                  (if currentPlayer = PlayerColor.red ∧
                      captureResult.capturedPiece.isSome then 1 else 0)⟩
              match checkWinCondition newBoard newPieceCounts with
              | .error e => .error e
              | .ok winResult =>
                let newPhase :=
                  if winResult.gameOver then GamePhase.gameOver
                  else s.gameState.phase
                let nextPlayer :=
                  if currentPlayer = PlayerColor.red then PlayerColor.blue
                  else PlayerColor.red
                .ok
                  { s with
                    gameState :=
                      { s.gameState with
                        board := newBoard
                        currentPlayer := nextPlayer
                        scores := newScores
                        capturedPieces := newCapturedPieces
                        moveHistory := newMoveHistory
                        pieceCounts := newPieceCounts
                        phase := newPhase }
                    selectedPiece := none
                    validMoves := [] }

/-- `startGame` (src/GameContext.tsx lines 176-201): enter the Draft phase;
note the board is left as it was, only scores/histories/counts reset. -/
def startGame (s : ContextState) : ContextState :=
  { s with
    gameState :=
      { s.gameState with
        phase := GamePhase.draft
        currentPlayer := PlayerColor.red
        scores := ⟨0, 0⟩
        capturedPieces := ⟨[], []⟩
        moveHistory := []
        pieceCounts := ⟨0, 0⟩
        gameActive := false }
    pieceSelections :=
      ⟨[⟨PieceType.normal, 0, 12⟩, ⟨PieceType.bagel, 0, 6⟩,
        ⟨PieceType.pancake, 0, 6⟩],
       [⟨PieceType.normal, 0, 12⟩, ⟨PieceType.bagel, 0, 6⟩,
        ⟨PieceType.pancake, 0, 6⟩]⟩ }

/-- `resetGame` (src/GameContext.tsx lines 203-216). -/
def resetGame (s : ContextState) : ContextState :=
  { s with
    gameState :=
      ⟨GamePhase.menu, PlayerColor.red, emptyBoard, ⟨0, 0⟩, ⟨[], []⟩, [],
        ⟨0, 0⟩, false⟩
    selectedPiece := none
    validMoves := [] }

/-- `togglePieceSelection` (src/GameContext.tsx lines 377-395).  A missing
variant entry would make `newSelections[player][-1].count` throw. -/
def togglePieceSelection (s : ContextState) (player : PlayerColor)
    (pieceType : PieceType) : Except Unit ContextState :=
  let sel := s.pieceSelections.get player
  match sel.findIdx? (fun x => decide (x.type = pieceType)) with
  | none => .error ()
  | some selectionIndex =>
    match sel.get? selectionIndex with
    | none => .error ()
    | some entry =>
      let currentTotal := draftTotal sel
      let newSel :=
        if entry.count < entry.max ∧ currentTotal < TOTAL_PIECES_PER_PLAYER then
          sel.set selectionIndex { entry with count := entry.count + 1 }
        else if entry.count > 0 then
          sel.set selectionIndex { entry with count := entry.count - 1 }
        else sel
      .ok { s with pieceSelections := s.pieceSelections.set player newSel }

/-! ## src/aiService.ts -/

/-- `AIDifficulty` (src/aiService.ts lines 30-34). -/
inductive AIDifficulty : Type
  | easy
  | medium
  | hard
deriving DecidableEq, Repr

/-- The scan loop of the aiService helper `getValidMovesForPiece`
(src/aiService.ts lines 5-27): for each square, skip squares holding one of
the AI's own pieces, then ask `isValidMove`. -/
def gvmAux (piece : Piece) (board : BoardArr) :
    List (Int × Int) → Except Unit (List Square)
  | [] => .ok []
  | (row, col) :: rest =>
    match readCell board row col with
    | .error e => .error e
    | .ok targetPiece =>
      if (match targetPiece with
          | some (some t) => decide (t.player = piece.player)
          | _ => false) then
        gvmAux piece board rest
      else
        match isValidMove board piece.position ⟨row, col⟩ piece with
        | .error e => .error e
        | .ok true =>
          match gvmAux piece board rest with
          | .error e => .error e
          | .ok vs => .ok (⟨row, col⟩ :: vs)
        | .ok false => gvmAux piece board rest

/-- `getValidMovesForPiece` (src/aiService.ts lines 5-27). -/
def getValidMovesForPieceAI (piece : Piece) (board : BoardArr) :
    Except Unit (List Square) :=
  gvmAux piece board allSquares

/-- `BaseAI.getAIPieces` (src/aiService.ts lines 186-199): collect the
pieces of the AI's colour in row-major order. -/
def getAIPieces (board : BoardArr) (playerColor : PlayerColor) : List Piece :=
  board.foldl
    (fun acc rowArr =>
      rowArr.foldl
        (fun acc2 cell =>
          match cell with
          | some p => if p.player = playerColor then acc2 ++ [p] else acc2
          | none => acc2)
        acc)
    []

/-- The `allPossibleMoves` accumulation in `BaseAI.getNextMove`
(src/aiService.ts lines 63-75). -/
def collectMoves (board : BoardArr) :
    List Piece → Except Unit (List (Piece × Square))
  | [] => .ok []
  | p :: rest =>
    match getValidMovesForPieceAI p board with
    | .error e => .error e
    | .ok validMoves =>
      match collectMoves board rest with
      | .error e => .error e
      | .ok acc => .ok ((validMoves.map fun move => (p, move)) ++ acc)

/-- `getPieceValue` (src/aiService.ts): the fixed value order used by the
hard AI. -/
def getPieceValue : PieceType → Int
  | .flyingDisk => 5
  | .pancake => 4
  | .bomb => 3
  | .vinyl => 2
  | .bagel => 1
  | .normal => 0

/-- Insertion step for `sortByPieceValue`. -/
def insertByValue (x : Piece × Square) :
    List (Piece × Square) → List (Piece × Square)
  | [] => [x]
  | y :: ys =>
    if getPieceValue x.1.type ≤ getPieceValue y.1.type then x :: y :: ys
    else y :: insertByValue x ys

/-- `capturingMoves.sort((a, b) => value(a) - value(b))` in `HardAI`
(src/aiService.ts lines 309-323): a stable ascending sort by piece value. -/
def sortByPieceValue : List (Piece × Square) → List (Piece × Square)
  | [] => []
  | x :: xs => insertByValue x (sortByPieceValue xs)

/-- `BaseAI.selectMove` / `EasyAI.selectMove` (src/aiService.ts lines
219-229, 239-247): uniform random selection.  `rand` stands for the stream
of `Math.random()` draws; `rand % length` ranges over exactly the indices
`Math.floor(Math.random() * length)` can produce. -/
def selectMoveEasy (rand : Nat) (possibleMoves : List (Piece × Square)) :
    Option (Piece × Square) :=
  if possibleMoves.length = 0 then none
  else possibleMoves.get? (rand % possibleMoves.length)

/-- `MediumAI.selectMove` (src/aiService.ts lines 257-281): prefer moves
whose column distance is two. -/
def selectMoveMedium (rand : Nat) (possibleMoves : List (Piece × Square)) :
    Option (Piece × Square) :=
  if possibleMoves.length = 0 then none
  else
    let capturingMoves :=
      possibleMoves.filter fun moveObj =>
        decide ((moveObj.2.col - moveObj.1.position.col).natAbs = 2)
    if capturingMoves.length > 0 then
      capturingMoves.get? (rand % capturingMoves.length)
    else
      possibleMoves.get? (rand % possibleMoves.length)

/-- `HardAI.selectMove` (src/aiService.ts lines 291-364): cheapest capture
first, else crowning / centre / any forward move, else random. -/
def selectMoveHard (rand : Nat) (possibleMoves : List (Piece × Square)) :
    Option (Piece × Square) :=
  if possibleMoves.length = 0 then none
  else
    let capturingMoves :=
      possibleMoves.filter fun moveObj =>
        decide ((moveObj.2.col - moveObj.1.position.col).natAbs = 2)
    if capturingMoves.length > 0 then
      (sortByPieceValue capturingMoves).head?
    else
      let forwardMoves :=
        possibleMoves.filter fun moveObj =>
          !moveObj.1.crowned && decide (moveObj.2.row < moveObj.1.position.row)
      if forwardMoves.length > 0 then
        let crowningMoves := forwardMoves.filter fun moveObj => decide (moveObj.2.row = 0)
        if crowningMoves.length > 0 then crowningMoves.head?
        else
          let centerMoves :=
            forwardMoves.filter fun moveObj =>
              decide (2 ≤ moveObj.2.col ∧ moveObj.2.col ≤ 5)
          if centerMoves.length > 0 then centerMoves.head?
          else forwardMoves.head?
      else
        possibleMoves.get? (rand % possibleMoves.length)

/-- The virtual `this.selectMove` dispatch: which override runs is fixed by
the AI's difficulty tier. -/
def selectMoveOf (difficulty : AIDifficulty) (rand : Nat)
    (possibleMoves : List (Piece × Square)) : Option (Piece × Square) :=
  match difficulty with
  | AIDifficulty.easy => selectMoveEasy rand possibleMoves
  | AIDifficulty.medium => selectMoveMedium rand possibleMoves
  | AIDifficulty.hard => selectMoveHard rand possibleMoves

/-- `BaseAI.getNextMove` (src/aiService.ts lines 53-90), with the difficulty
tier selecting the `selectMove` override.  The AI's colour is the fixed
`playerColor = "blue"`.  Promises in the source resolve immediately (no
suspension happens inside the decision logic), so the result is the resolved
value. -/
def getNextMove (difficulty : AIDifficulty) (rand : Nat) (gameState : GameState) :
    Except Unit (Option Move) :=
  if gameState.currentPlayer ≠ PlayerColor.blue then .ok none
  else
    let aiPieces := getAIPieces gameState.board PlayerColor.blue
    if aiPieces.length = 0 then .ok none
    else
      match collectMoves gameState.board aiPieces with
      | .error e => .error e
      | .ok allPossibleMoves =>
        if allPossibleMoves.length = 0 then .ok none
        else
          match selectMoveOf difficulty rand allPossibleMoves with
          | none => .ok none
          | some (piece, move) =>
            .ok (some ⟨piece, piece.position, move, none⟩)

/-! ## Well-formedness

The data model (spec §3) fixes boards to 8×8 grids whose stored piece
positions agree with the grid index holding them.  These predicates isolate
the inputs over which the claims quantify. -/

/-- The board is a literal 8×8 grid. -/
def BoardWF (b : BoardArr) : Prop :=
  b.length = 8 ∧ ∀ rowArr ∈ b, rowArr.length = 8

instance : DecidablePred BoardWF := fun b => by
  unfold BoardWF; infer_instance

/-- The piece's stored position lies on the 8×8 grid. -/
def posInBounds (p : Piece) : Prop :=
  0 ≤ p.position.row ∧ p.position.row < 8 ∧
    0 ≤ p.position.col ∧ p.position.col < 8

instance : DecidablePred posInBounds := fun p => by
  unfold posInBounds; infer_instance

/-- One cell respects the Board invariant: any piece stored there carries
the position of its slot. -/
def cellConsistent (b : BoardArr) (i j : Fin 8) : Bool :=
  match readCell b (i : Int) (j : Int) with
  | .ok (some (some p)) =>
    decide (p.position.row = (i : Int) ∧ p.position.col = (j : Int))
  | _ => true

/-- Every piece stored on the board carries the position of the slot holding
it (spec §3 Board invariant). -/
def PositionsConsistent (b : BoardArr) : Prop :=
  ∀ i j : Fin 8, cellConsistent b i j = true

instance : DecidablePred PositionsConsistent := fun b => by
  unfold PositionsConsistent; infer_instance

/-- The origin square of the last recorded move (if any) has an on-board
row, so the bagel's history probe cannot dereference a missing row. -/
def HistoryOk (moveHistory : List Move) : Prop :=
  ∀ lm, moveHistory.getLast? = some lm → 0 ≤ lm.fr.row ∧ lm.fr.row < 8

/-! ## Basic read/write lemmas -/

theorem inBounds_iff {r c : Int} :
    inBounds r c = true ↔ (0 ≤ r ∧ r < 8 ∧ 0 ≤ c ∧ c < 8) := by
  simp [inBounds]

theorem jsIndex_eq_some {α : Type} {l : List α} {i : Int} {a : α}
    (h : jsIndex l i = some a) :
    0 ≤ i ∧ i.toNat < l.length ∧ l.get? i.toNat = some a := by
  unfold jsIndex at h
  split at h
  · exact absurd h (by simp)
  · next hi => exact ⟨by omega, (List.get?_eq_some.mp h).1, h⟩

theorem jsIndex_of_lt {α : Type} {l : List α} {i : Int}
    (h0 : 0 ≤ i) (_h : i.toNat < l.length) : jsIndex l i = l.get? i.toNat := by
  unfold jsIndex
  split
  · omega
  · rfl

theorem readCell_ok_of_WF {b : BoardArr} (hWF : BoardWF b) {r c : Int}
    (hr0 : 0 ≤ r) (hr : r < 8) (hc0 : 0 ≤ c) (hc : c < 8) :
    ∃ cell : Cell, readCell b r c = .ok (some cell) := by
  obtain ⟨hlen, hrows⟩ := hWF
  have hrn : r.toNat < b.length := by omega
  obtain ⟨rowArr, hrow⟩ : ∃ x, b.get? r.toNat = some x :=
    ⟨b.get ⟨r.toNat, hrn⟩, List.get?_eq_get hrn⟩
  have hmem : rowArr ∈ b := List.get?_mem hrow
  have hrlen : rowArr.length = 8 := hrows rowArr hmem
  have hcn : c.toNat < rowArr.length := by omega
  obtain ⟨cell, hcell⟩ :
      ∃ x, rowArr.get? c.toNat = some x := ⟨rowArr.get ⟨c.toNat, hcn⟩, List.get?_eq_get hcn⟩
  refine ⟨cell, ?_⟩
  unfold readCell
  rw [jsIndex_of_lt hr0 hrn, hrow]
  show Except.ok (jsIndex rowArr c) = Except.ok (some cell)
  rw [jsIndex_of_lt hc0 hcn, hcell]

theorem readCell_error_of_WF {b : BoardArr} (hWF : BoardWF b) {r : Int}
    (c : Int) (hr : r < 0 ∨ 8 ≤ r) : readCell b r c = .error () := by
  obtain ⟨hlen, -⟩ := hWF
  unfold readCell jsIndex
  rcases hr with hr | hr
  · simp [hr]
  · have : ¬ r < 0 := by omega
    simp only [this, if_false]
    have : b.length ≤ r.toNat := by omega
    rw [List.get?_eq_none.mpr this]

theorem readCell_undef_of_WF {b : BoardArr} (hWF : BoardWF b) {r c : Int}
    (hr0 : 0 ≤ r) (hr : r < 8) (hc : c < 0 ∨ 8 ≤ c) :
    readCell b r c = .ok none := by
  obtain ⟨hlen, hrows⟩ := hWF
  have hrn : r.toNat < b.length := by omega
  obtain ⟨rowArr, hrow⟩ :
      ∃ x, b.get? r.toNat = some x := ⟨b.get ⟨r.toNat, hrn⟩, List.get?_eq_get hrn⟩
  have hrlen : rowArr.length = 8 := hrows rowArr (List.get?_mem hrow)
  unfold readCell
  rw [jsIndex_of_lt hr0 hrn, hrow]
  unfold jsIndex
  rcases hc with hc | hc
  · simp [hc]
  · have : ¬ c < 0 := by omega
    simp only [this, if_false]
    rw [List.get?_eq_none.mpr (by omega)]

theorem bounds_of_readCell_some {b : BoardArr} (hWF : BoardWF b)
    {r c : Int} {cell : Cell} (h : readCell b r c = .ok (some cell)) :
    0 ≤ r ∧ r < 8 ∧ 0 ≤ c ∧ c < 8 := by
  rcases lt_or_le r 0 with hr | hr0
  · rw [readCell_error_of_WF hWF c (Or.inl hr)] at h; simp at h
  rcases le_or_lt 8 r with hr8 | hr
  · rw [readCell_error_of_WF hWF c (Or.inr hr8)] at h; simp at h
  rcases lt_or_le c 0 with hc | hc0
  · rw [readCell_undef_of_WF hWF hr0 hr (Or.inl hc)] at h; simp at h
  rcases le_or_lt 8 c with hc8 | hc
  · rw [readCell_undef_of_WF hWF hr0 hr (Or.inr hc8)] at h; simp at h
  exact ⟨hr0, hr, hc0, hc⟩

theorem readCell_rowOk_of_WF {b : BoardArr} (hWF : BoardWF b) {r : Int}
    (c : Int) (hr0 : 0 ≤ r) (hr : r < 8) :
    ∃ v, readCell b r c = .ok v := by
  obtain ⟨hlen, -⟩ := hWF
  have hrn : r.toNat < b.length := by omega
  obtain ⟨rowArr, hrow⟩ : ∃ x, b.get? r.toNat = some x :=
    ⟨b.get ⟨r.toNat, hrn⟩, List.get?_eq_get hrn⟩
  refine ⟨jsIndex rowArr c, ?_⟩
  unfold readCell
  rw [jsIndex_of_lt hr0 hrn, hrow]

/-! ## Characterizations of the generator filter loops -/

theorem filterEmptyIn_spec {b : BoardArr} (hWF : BoardWF b) (l : List Square) :
    ∃ ms, filterEmptyIn b l = .ok ms ∧
      ∀ sq, sq ∈ ms ↔ (sq ∈ l ∧ inBounds sq.row sq.col = true ∧
        readCell b sq.row sq.col = .ok (some none)) := by
  induction l with
  | nil => exact ⟨[], rfl, by simp⟩
  | cons m rest ih =>
    obtain ⟨ms, hms, hmem⟩ := ih
    by_cases hin : inBounds m.row m.col = true
    · obtain ⟨hr0, hr, hc0, hc⟩ := inBounds_iff.mp hin
      obtain ⟨cell, hcell⟩ := readCell_ok_of_WF hWF hr0 hr hc0 hc
      cases cell with
      | none =>
        refine ⟨m :: ms, ?_, ?_⟩
        · simp only [filterEmptyIn, hin, if_true, hcell, hms]
        · intro sq
          simp only [List.mem_cons, hmem]
          constructor
          · rintro (rfl | ⟨hsq, hb2, hc2⟩)
            · exact ⟨Or.inl rfl, hin, hcell⟩
            · exact ⟨Or.inr hsq, hb2, hc2⟩
          · rintro ⟨rfl | hsq, hb2, hc2⟩
            · exact Or.inl rfl
            · exact Or.inr ⟨hsq, hb2, hc2⟩
      | some p =>
        refine ⟨ms, ?_, ?_⟩
        · simp only [filterEmptyIn, hin, if_true, hcell, hms]
        · intro sq
          rw [hmem]
          constructor
          · rintro ⟨hsq, hb2, hc2⟩; exact ⟨List.mem_cons_of_mem m hsq, hb2, hc2⟩
          · rintro ⟨hsq, hb2, hc2⟩
            rcases List.mem_cons.mp hsq with rfl | hsq'
            · rw [hcell] at hc2; simp at hc2
            · exact ⟨hsq', hb2, hc2⟩
    · have hin' : inBounds m.row m.col = false := by simpa using hin
      refine ⟨ms, ?_, ?_⟩
      · simp [filterEmptyIn, hin', hms]
      · intro sq
        rw [hmem]
        constructor
        · rintro ⟨hsq, hb2, hc2⟩; exact ⟨List.mem_cons_of_mem m hsq, hb2, hc2⟩
        · rintro ⟨hsq, hb2, hc2⟩
          rcases List.mem_cons.mp hsq with rfl | hsq'
          · exact absurd hb2 hin
          · exact ⟨hsq', hb2, hc2⟩

/-- The capture filter loop keeps exactly the landing squares of candidates
whose landing square is in bounds and empty and whose midpoint read passes
the JavaScript `!== null` / `?.player` test. -/
def capKept (b : BoardArr) (piece : Piece) (cand : CaptureCand) : Prop :=
  inBounds cand.endRow cand.endCol = true ∧
    (∃ midv, readCell b cand.midRow cand.midCol = .ok midv ∧
      (neNull midv && decide (playerOfCell midv ≠ some piece.player)) = true) ∧
    readCell b cand.endRow cand.endCol = .ok (some none)

theorem filterCaptures_spec {b : BoardArr} (hWF : BoardWF b) (piece : Piece)
    (l : List CaptureCand)
    (hmid : ∀ cand ∈ l, inBounds cand.endRow cand.endCol = true →
      0 ≤ cand.midRow ∧ cand.midRow < 8) :
    ∃ ms, filterCaptures b piece l = .ok ms ∧
      ∀ sq, sq ∈ ms ↔ ∃ cand ∈ l,
        sq = ⟨cand.endRow, cand.endCol⟩ ∧ capKept b piece cand := by
  induction l with
  | nil => exact ⟨[], rfl, by simp⟩
  | cons cand rest ih =>
    obtain ⟨ms, hms, hmem⟩ := ih (fun c hc => hmid c (List.mem_cons_of_mem cand hc))
    by_cases hin : inBounds cand.endRow cand.endCol = true
    · obtain ⟨hm0, hm8⟩ := hmid cand (List.mem_cons_self cand rest) hin
      obtain ⟨midv, hmidv⟩ := readCell_rowOk_of_WF hWF cand.midCol hm0 hm8
      by_cases hcond :
          (neNull midv && decide (playerOfCell midv ≠ some piece.player)) = true
      · obtain ⟨he0, he8, hf0, hf8⟩ := inBounds_iff.mp hin
        obtain ⟨endCell, hend⟩ := readCell_ok_of_WF hWF he0 he8 hf0 hf8
        cases endCell with
        | none =>
          refine ⟨⟨cand.endRow, cand.endCol⟩ :: ms, ?_, ?_⟩
          · simp only [filterCaptures, hin, if_true, hmidv, hcond, hend, hms]
          · intro sq
            constructor
            · intro hsq
              rcases List.mem_cons.mp hsq with rfl | hsq'
              · exact ⟨cand, List.mem_cons_self cand rest, rfl,
                  hin, ⟨midv, hmidv, hcond⟩, hend⟩
              · obtain ⟨c', hc', rfl, hk⟩ := (hmem sq).mp hsq'
                exact ⟨c', List.mem_cons_of_mem cand hc', rfl, hk⟩
            · rintro ⟨c', hc', rfl, hk⟩
              rcases List.mem_cons.mp hc' with rfl | hc''
              · exact List.mem_cons_self _ _
              · exact List.mem_cons_of_mem _ ((hmem _).mpr ⟨c', hc'', rfl, hk⟩)
        | some p =>
          refine ⟨ms, ?_, ?_⟩
          · simp only [filterCaptures, hin, if_true, hmidv, hcond, hend, hms]
          · intro sq
            rw [hmem]
            constructor
            · rintro ⟨c', hc', rfl, hk⟩
              exact ⟨c', List.mem_cons_of_mem cand hc', rfl, hk⟩
            · rintro ⟨c', hc', rfl, hk⟩
              rcases List.mem_cons.mp hc' with rfl | hc''
              · obtain ⟨-, -, hk3⟩ := hk
                rw [hend] at hk3
                simp at hk3
              · exact ⟨c', hc'', rfl, hk⟩
      · have hcond' :
            (neNull midv && decide (playerOfCell midv ≠ some piece.player)) = false := by
          simpa using hcond
        refine ⟨ms, ?_, ?_⟩
        · simp only [filterCaptures, hin, if_true, hmidv, hcond']
          simp [hms]
        · intro sq
          rw [hmem]
          constructor
          · rintro ⟨c', hc', rfl, hk⟩
            exact ⟨c', List.mem_cons_of_mem cand hc', rfl, hk⟩
          · rintro ⟨c', hc', rfl, hk⟩
            rcases List.mem_cons.mp hc' with rfl | hc''
            · obtain ⟨-, ⟨midv', hmidv', hcond'⟩, -⟩ := hk
              rw [hmidv] at hmidv'
              cases hmidv'
              exact absurd hcond' hcond
            · exact ⟨c', hc'', rfl, hk⟩
    · have hin' : inBounds cand.endRow cand.endCol = false := by simpa using hin
      refine ⟨ms, ?_, ?_⟩
      · simp [filterCaptures, hin', hms]
      · intro sq
        rw [hmem]
        constructor
        · rintro ⟨c', hc', rfl, hk⟩
          exact ⟨c', List.mem_cons_of_mem cand hc', rfl, hk⟩
        · rintro ⟨c', hc', rfl, hk⟩
          rcases List.mem_cons.mp hc' with rfl | hc''
          · exact absurd hk.1 hin
          · exact ⟨c', hc'', rfl, hk⟩


/-! ## Generator characterizations -/

theorem directionOf_cases (piece : Piece) :
    directionOf piece = 1 ∨ directionOf piece = -1 := by
  unfold directionOf
  split
  · exact Or.inl rfl
  · exact Or.inr rfl

theorem captureMovesOf_midRow {piece : Piece} (hpos : posInBounds piece) :
    ∀ cand ∈ captureMovesOf piece, inBounds cand.endRow cand.endCol = true →
      0 ≤ cand.midRow ∧ cand.midRow < 8 := by
  obtain ⟨hr0, hr8, hc0, hc8⟩ := hpos
  intro cand hcand hin
  obtain ⟨he0, he8, -, -⟩ := inBounds_iff.mp hin
  rcases directionOf_cases piece with hd | hd <;>
    by_cases hcr : piece.crowned <;>
      simp only [captureMovesOf, hd, hcr, if_true, if_false, List.append_nil,
        List.mem_append, List.mem_cons, List.mem_singleton,
        List.not_mem_nil, or_false] at hcand
  all_goals
    rcases hcand with (rfl | rfl) | (rfl | rfl) <;> (dsimp at he0 he8 ⊢; omega)

theorem pancakeCaptureDirectionsOf_midRow {piece : Piece}
    (hpos : posInBounds piece) :
    ∀ cand ∈ pancakeCaptureDirectionsOf piece,
      inBounds cand.endRow cand.endCol = true →
        0 ≤ cand.midRow ∧ cand.midRow < 8 := by
  obtain ⟨hr0, hr8, hc0, hc8⟩ := hpos
  intro cand hcand hin
  obtain ⟨he0, he8, -, -⟩ := inBounds_iff.mp hin
  simp only [pancakeCaptureDirectionsOf, List.mem_cons, List.mem_singleton,
    List.not_mem_nil, or_false] at hcand
  rcases hcand with rfl | rfl | rfl | rfl | rfl | rfl <;>
    dsimp at he0 he8 ⊢ <;> omega

/-- `getNormalMoves` succeeds on a well-formed board for an on-board piece,
and its output is exactly the in-bounds empty diagonal candidates plus the
kept capture candidates. -/
theorem getNormalMoves_spec {b : BoardArr} {piece : Piece}
    (hWF : BoardWF b) (hpos : posInBounds piece) :
    ∃ ms, getNormalMoves b piece = .ok ms ∧
      ∀ sq, sq ∈ ms ↔
        ((sq ∈ diagonalMovesOf piece ∧ inBounds sq.row sq.col = true ∧
            readCell b sq.row sq.col = .ok (some none)) ∨
          ∃ cand ∈ captureMovesOf piece,
            sq = ⟨cand.endRow, cand.endCol⟩ ∧ capKept b piece cand) := by
  obtain ⟨ms1, h1, hm1⟩ := filterEmptyIn_spec hWF (diagonalMovesOf piece)
  obtain ⟨ms2, h2, hm2⟩ :=
    filterCaptures_spec hWF piece (captureMovesOf piece)
      (captureMovesOf_midRow hpos)
  refine ⟨ms1 ++ ms2, ?_, ?_⟩
  · simp only [getNormalMoves, h1, h2]
  · intro sq
    simp only [List.mem_append, hm1, hm2]

/-- `getPancakeMoves` succeeds on a well-formed board for an on-board piece,
and its output is exactly the in-bounds empty step candidates plus the kept
capture candidates. -/
theorem getPancakeMoves_spec {b : BoardArr} {piece : Piece}
    (hWF : BoardWF b) (hpos : posInBounds piece) :
    ∃ ms, getPancakeMoves b piece = .ok ms ∧
      ∀ sq, sq ∈ ms ↔
        ((sq ∈ pancakePossibleMovesOf piece ∧ inBounds sq.row sq.col = true ∧
            readCell b sq.row sq.col = .ok (some none)) ∨
          ∃ cand ∈ pancakeCaptureDirectionsOf piece,
            sq = ⟨cand.endRow, cand.endCol⟩ ∧ capKept b piece cand) := by
  obtain ⟨ms1, h1, hm1⟩ := filterEmptyIn_spec hWF (pancakePossibleMovesOf piece)
  obtain ⟨ms2, h2, hm2⟩ :=
    filterCaptures_spec hWF piece (pancakeCaptureDirectionsOf piece)
      (pancakeCaptureDirectionsOf_midRow hpos)
  refine ⟨ms1 ++ ms2, ?_, ?_⟩
  · simp only [getPancakeMoves, h1, h2]
  · intro sq
    simp only [List.mem_append, hm1, hm2]

/-- The bagel's special destination when the conditions of
src/gameLogic.ts lines 107-119 are met, else no extra square. -/
def bagelSpecial (b : BoardArr) (piece : Piece) (moveHistory : List Move) :
    List Square :=
  match moveHistory.getLast? with
  | none => []
  | some lastMove =>
    if lastMove.piece.player ≠ piece.player then
      if isValidDiagonalMove piece.position lastMove.fr piece.crowned
          piece.player then
        match readCell b lastMove.fr.row lastMove.fr.col with
        | .ok (some none) => [lastMove.fr]
        | _ => []
      else []
    else []

/-- `getBagelMoves` succeeds on a well-formed board for an on-board piece
when the last recorded move (if any) has an on-board origin row, and returns
exactly the normal moves followed by the conditional special square. -/
theorem getBagelMoves_spec {b : BoardArr} {piece : Piece}
    {moveHistory : List Move} (hWF : BoardWF b) (hpos : posInBounds piece)
    (hhist : HistoryOk moveHistory) :
    ∃ nm, getNormalMoves b piece = .ok nm ∧
      getBagelMoves b piece moveHistory =
        .ok (nm ++ bagelSpecial b piece moveHistory) := by
  obtain ⟨nm, hnm, -⟩ := getNormalMoves_spec hWF hpos
  refine ⟨nm, hnm, ?_⟩
  unfold getBagelMoves bagelSpecial
  rw [hnm]
  cases hlast : moveHistory.getLast? with
  | none => simp
  | some lastMove =>
    dsimp only
    by_cases hpl : lastMove.piece.player ≠ piece.player
    · rw [if_pos hpl, if_pos hpl]
      by_cases hdiag :
          isValidDiagonalMove piece.position lastMove.fr piece.crowned
            piece.player = true
      · rw [if_pos hdiag, if_pos hdiag]
        obtain ⟨hl0, hl8⟩ := hhist lastMove hlast
        obtain ⟨v, hv⟩ := readCell_rowOk_of_WF hWF lastMove.fr.col hl0 hl8
        rw [hv]
        rcases v with - | c
        · rfl
        · rcases c with - | p <;> rfl
      · rw [if_neg hdiag, if_neg hdiag]
    · rw [if_neg hpl, if_neg hpl]


/-! ## Validator characterizations -/

theorem neNull_eq_true_iff {v : Option Cell} :
    neNull v = true ↔ v ≠ some none := by
  unfold neNull
  rcases v with - | c
  · simp
  · rcases c with - | p <;> simp

/-- The forward test of `isValidNormalMove`:
`(player === "red" && rowDiff > 0) || (player === "blue" && rowDiff < 0)`. -/
def isForwardDir (piece : Piece) (dr : Int) : Prop :=
  (piece.player = PlayerColor.red ∧ dr > 0) ∨
    (piece.player = PlayerColor.blue ∧ dr < 0)

instance (piece : Piece) (dr : Int) : Decidable (isForwardDir piece dr) := by
  unfold isForwardDir; infer_instance

/-- What `isValidNormalMove` accepts, as geometry: a one-step diagonal in an
allowed direction, or a two-step diagonal in an allowed direction over an
opposing midpoint piece. -/
def normalGeom (b : BoardArr) (piece : Piece) (sq : Square) : Prop :=
  ((sq.row - piece.position.row).natAbs = 1 ∧
   (sq.col - piece.position.col).natAbs = 1 ∧
   (piece.crowned = true ∨ isForwardDir piece (sq.row - piece.position.row))) ∨
  ((sq.row - piece.position.row).natAbs = 2 ∧
   (sq.col - piece.position.col).natAbs = 2 ∧
   (piece.crowned = true ∨ isForwardDir piece (sq.row - piece.position.row)) ∧
   ∃ q, readCell b (piece.position.row + (sq.row - piece.position.row) / 2)
          (piece.position.col + (sq.col - piece.position.col) / 2) =
        .ok (some (some q)) ∧ q.player ≠ piece.player)

theorem isValidNormalMove_ok_true_iff (b : BoardArr) (piece : Piece)
    (toSq : Square) :
    isValidNormalMove b piece.position toSq piece = .ok true ↔
      normalGeom b piece toSq := by
  unfold isValidNormalMove normalGeom isForwardDir
  by_cases h1 : (toSq.row - piece.position.row).natAbs = 1 ∧
      (toSq.col - piece.position.col).natAbs = 1
  · rw [if_pos h1]
    simp only [Except.ok.injEq, Bool.or_eq_true, decide_eq_true_eq]
    constructor
    · intro hor
      exact Or.inl ⟨h1.1, h1.2, hor⟩
    · rintro (⟨-, -, hcf⟩ | ⟨h2, -, -⟩)
      · exact hcf
      · omega
  · rw [if_neg h1]
    by_cases h2 : (toSq.row - piece.position.row).natAbs = 2 ∧
        (toSq.col - piece.position.col).natAbs = 2
    · rw [if_pos h2]
      dsimp only
      cases hmid : readCell b
          (piece.position.row + (toSq.row - piece.position.row) / 2)
          (piece.position.col + (toSq.col - piece.position.col) / 2) with
      | error e =>
        constructor
        · intro hfalse; cases hfalse
        · rintro (⟨ha, -, -⟩ | ⟨-, -, -, q, hq, -⟩)
          · exact absurd (And.intro ha (by omega)) h1
          · simp at hq
      | ok midv =>
        dsimp only
        by_cases hcf : (piece.crowned ||
            decide ((piece.player = PlayerColor.red ∧
                toSq.row - piece.position.row > 0) ∨
              (piece.player = PlayerColor.blue ∧
                toSq.row - piece.position.row < 0))) = true
        · rw [if_pos hcf]
          have hcf' : piece.crowned = true ∨
              (piece.player = PlayerColor.red ∧
                toSq.row - piece.position.row > 0) ∨
              (piece.player = PlayerColor.blue ∧
                toSq.row - piece.position.row < 0) := by
            simpa [Bool.or_eq_true, decide_eq_true_eq] using hcf
          rcases midv with - | c
          · constructor
            · intro hfalse; cases hfalse
            · rintro (⟨ha, -, -⟩ | ⟨-, -, -, q, hq, -⟩)
              · exact absurd (And.intro ha (by omega)) h1
              · simp at hq
          · rcases c with - | q0
            · constructor
              · intro hfalse; simp at hfalse
              · rintro (⟨ha, -, -⟩ | ⟨-, -, -, q, hq, -⟩)
                · exact absurd (And.intro ha (by omega)) h1
                · simp at hq
            · simp only [Except.ok.injEq, decide_eq_true_eq]
              constructor
              · intro hne
                exact Or.inr ⟨h2.1, h2.2, hcf', q0, rfl, hne⟩
              · rintro (⟨ha, -, -⟩ | ⟨-, -, -, q, hq, hne⟩)
                · exact absurd (And.intro ha (by omega)) h1
                · simp only [Except.ok.injEq, Option.some.injEq] at hq
                  subst hq
                  exact hne
        · rw [if_neg hcf]
          have hcf' : ¬ (piece.crowned = true ∨
              (piece.player = PlayerColor.red ∧
                toSq.row - piece.position.row > 0) ∨
              (piece.player = PlayerColor.blue ∧
                toSq.row - piece.position.row < 0)) := by
            intro hor
            apply hcf
            simp only [Bool.or_eq_true, decide_eq_true_eq]
            exact hor
          constructor
          · intro hfalse; simp at hfalse
          · rintro (⟨ha, -, -⟩ | ⟨-, -, hor, -⟩)
            · exact absurd (And.intro ha (by omega)) h1
            · exact absurd hor hcf'
    · rw [if_neg h2]
      constructor
      · intro hfalse; simp at hfalse
      · rintro (⟨ha, hb, -⟩ | ⟨ha, hb, -, -⟩)
        · exact absurd ⟨ha, hb⟩ h1
        · exact absurd ⟨ha, hb⟩ h2

theorem isValidNormalMove_error_geom {b : BoardArr} {piece : Piece}
    {toSq : Square} {e : Unit}
    (h : isValidNormalMove b piece.position toSq piece = .error e) :
    (toSq.row - piece.position.row).natAbs = 2 ∧
      (toSq.col - piece.position.col).natAbs = 2 := by
  unfold isValidNormalMove at h
  by_cases h1 : (toSq.row - piece.position.row).natAbs = 1 ∧
      (toSq.col - piece.position.col).natAbs = 1
  · rw [if_pos h1] at h; cases h
  · rw [if_neg h1] at h
    by_cases h2 : (toSq.row - piece.position.row).natAbs = 2 ∧
        (toSq.col - piece.position.col).natAbs = 2
    · exact h2
    · rw [if_neg h2] at h; cases h

theorem isValidBagelMove_ok_true_iff (b : BoardArr) (piece : Piece)
    (fr toSq : Square) :
    isValidBagelMove b fr toSq piece = .ok true ↔
      isValidNormalMove b fr toSq piece = .ok true := by
  unfold isValidBagelMove
  cases h : isValidNormalMove b fr toSq piece with
  | error e => simp
  | ok bb => cases bb <;> simp

/-- What `isValidPancakeMove` accepts beyond the normal geometry: a lateral
step onto an empty square, or a lateral two-step over an opposing piece. -/
def pancakeLateralGeom (b : BoardArr) (piece : Piece) (sq : Square) : Prop :=
  ((sq.row - piece.position.row).natAbs = 0 ∧
   (sq.col - piece.position.col).natAbs = 1 ∧
   readCell b sq.row sq.col = .ok (some none)) ∨
  ((sq.row - piece.position.row).natAbs = 0 ∧
   (sq.col - piece.position.col).natAbs = 2 ∧
   ∃ q, readCell b piece.position.row
          (piece.position.col + (sq.col - piece.position.col) / 2) =
        .ok (some (some q)) ∧ q.player ≠ piece.player)

theorem isValidPancakeMove_ok_true_iff (b : BoardArr) (piece : Piece)
    (toSq : Square) :
    isValidPancakeMove b piece.position toSq piece = .ok true ↔
      (normalGeom b piece toSq ∨ pancakeLateralGeom b piece toSq) := by
  unfold isValidPancakeMove
  cases hn : isValidNormalMove b piece.position toSq piece with
  | error e =>
    obtain ⟨h2r, -⟩ := isValidNormalMove_error_geom hn
    constructor
    · intro hfalse; cases hfalse
    · rintro (hg | hg)
      · exact absurd ((isValidNormalMove_ok_true_iff b piece toSq).mpr hg)
          (by rw [hn]; intro hx; cases hx)
      · unfold pancakeLateralGeom at hg
        rcases hg with ⟨h0, -, -⟩ | ⟨h0, -, -⟩ <;> omega
  | ok bb =>
    cases bb with
    | true =>
      dsimp only
      simp only [true_iff]
      exact Or.inl ((isValidNormalMove_ok_true_iff b piece toSq).mp hn)
    | false =>
      dsimp only
      have hng : ¬ normalGeom b piece toSq := by
        intro hg
        have := (isValidNormalMove_ok_true_iff b piece toSq).mpr hg
        rw [hn] at this
        cases this
      unfold pancakeLateralGeom
      by_cases hL1 : (toSq.row - piece.position.row).natAbs = 0 ∧
          (toSq.col - piece.position.col).natAbs = 1
      · rw [if_pos hL1]
        cases hcell : readCell b toSq.row toSq.col with
        | error e =>
          constructor
          · intro hfalse; cases hfalse
          · rintro (hg | ⟨-, -, hc⟩ | ⟨-, h2, -⟩)
            · exact absurd hg hng
            · simp at hc
            · omega
        | ok v =>
          rcases v with - | c
          · constructor
            · intro hfalse; simp at hfalse
            · rintro (hg | ⟨-, -, hc⟩ | ⟨-, h2, -⟩)
              · exact absurd hg hng
              · simp at hc
              · omega
          · rcases c with - | p
            · simp only [true_iff]
              exact Or.inr (Or.inl ⟨hL1.1, hL1.2, trivial⟩)
            · constructor
              · intro hfalse; simp at hfalse
              · rintro (hg | ⟨-, -, hc⟩ | ⟨-, h2, -⟩)
                · exact absurd hg hng
                · simp at hc
                · omega
      · rw [if_neg hL1]
        by_cases hL2 : (toSq.row - piece.position.row).natAbs = 0 ∧
            (toSq.col - piece.position.col).natAbs = 2
        · rw [if_pos hL2]
          cases hmid : readCell b piece.position.row
              (piece.position.col + (toSq.col - piece.position.col) / 2) with
          | error e =>
            constructor
            · intro hfalse; cases hfalse
            · rintro (hg | ⟨h0, h1c, -⟩ | ⟨-, -, q, hq, -⟩)
              · exact absurd hg hng
              · exact absurd ⟨h0, h1c⟩ hL1
              · simp at hq
          | ok midv =>
            rcases midv with - | c
            · constructor
              · intro hfalse; cases hfalse
              · rintro (hg | ⟨h0, h1c, -⟩ | ⟨-, -, q, hq, -⟩)
                · exact absurd hg hng
                · exact absurd ⟨h0, h1c⟩ hL1
                · simp at hq
            · rcases c with - | q0
              · constructor
                · intro hfalse; simp at hfalse
                · rintro (hg | ⟨h0, h1c, -⟩ | ⟨-, -, q, hq, -⟩)
                  · exact absurd hg hng
                  · exact absurd ⟨h0, h1c⟩ hL1
                  · simp at hq
              · simp only [Except.ok.injEq, decide_eq_true_eq]
                constructor
                · intro hne
                  exact Or.inr (Or.inr ⟨hL2.1, hL2.2, q0, rfl, hne⟩)
                · rintro (hg | ⟨h0, h1c, -⟩ | ⟨-, -, q, hq, hne⟩)
                  · exact absurd hg hng
                  · exact absurd ⟨h0, h1c⟩ hL1
                  · simp only [Except.ok.injEq, Option.some.injEq] at hq
                    subst hq
                    exact hne
        · rw [if_neg hL2]
          constructor
          · intro hfalse; simp at hfalse
          · rintro (hg | ⟨h0, h1c, -⟩ | ⟨h0, h2c, -⟩)
            · exact absurd hg hng
            · exact absurd ⟨h0, h1c⟩ hL1
            · exact absurd ⟨h0, h2c⟩ hL2

/-- The per-variant dispatch of `isValidMove` once the destination has been
found empty and in bounds. -/
def variantValid (b : BoardArr) (piece : Piece) (toSq : Square) : Prop :=
  match piece.type with
  | PieceType.normal => isValidNormalMove b piece.position toSq piece = .ok true
  | PieceType.bagel => isValidBagelMove b piece.position toSq piece = .ok true
  | PieceType.pancake => isValidPancakeMove b piece.position toSq piece = .ok true
  | _ => False

theorem isValidMove_ok_true_iff (b : BoardArr) (piece : Piece) (toSq : Square) :
    isValidMove b piece.position toSq piece = .ok true ↔
      (readCell b toSq.row toSq.col = .ok (some none) ∧
       ¬ (toSq.row < 0 ∨ toSq.row > 7 ∨ toSq.col < 0 ∨ toSq.col > 7) ∧
       variantValid b piece toSq) := by
  unfold isValidMove
  cases hcell : readCell b toSq.row toSq.col with
  | error e =>
    constructor
    · intro hfalse; cases hfalse
    · rintro ⟨hc, -, -⟩; cases hc
  | ok v =>
    dsimp only
    by_cases hnn : neNull v = true
    · rw [if_pos hnn]
      constructor
      · intro hfalse; cases hfalse
      · rintro ⟨hc, -, -⟩
        cases hc
        exact absurd rfl (neNull_eq_true_iff.mp hnn)
    · rw [if_neg hnn]
      have hv : v = some none := by
        by_contra hne
        exact hnn (neNull_eq_true_iff.mpr hne)
      subst hv
      by_cases hb : toSq.row < 0 ∨ toSq.row > 7 ∨ toSq.col < 0 ∨ toSq.col > 7
      · rw [if_pos (by simpa using hb)]
        constructor
        · intro hfalse; simp at hfalse
        · rintro ⟨-, hnb, -⟩; exact absurd hb hnb
      · rw [if_neg (by simpa using hb)]
        unfold variantValid
        cases htyp : piece.type
        · constructor
          · intro hval; exact ⟨rfl, hb, hval⟩
          · rintro ⟨-, -, hval⟩; exact hval
        · constructor
          · intro hval; exact ⟨rfl, hb, hval⟩
          · rintro ⟨-, -, hval⟩; exact hval
        · constructor
          · intro hval; exact ⟨rfl, hb, hval⟩
          · rintro ⟨-, -, hval⟩; exact hval
        · constructor
          · intro hfalse; simp at hfalse
          · rintro ⟨-, -, hfalse⟩; exact hfalse.elim
        · constructor
          · intro hfalse; simp at hfalse
          · rintro ⟨-, -, hfalse⟩; exact hfalse.elim
        · constructor
          · intro hfalse; simp at hfalse
          · rintro ⟨-, -, hfalse⟩; exact hfalse.elim


/-! ## Geometry of the candidate lists -/

theorem directionOf_red {piece : Piece}
    (hp : piece.player = PlayerColor.red) : directionOf piece = 1 := by
  unfold directionOf
  rw [hp]
  simp

theorem directionOf_blue {piece : Piece}
    (hp : piece.player = PlayerColor.blue) : directionOf piece = -1 := by
  unfold directionOf
  rw [hp]
  simp

theorem isForwardDir_iff_sign (piece : Piece) (dr : Int) :
    isForwardDir piece dr ↔ 0 < dr * directionOf piece := by
  unfold isForwardDir
  cases hp : piece.player
  · rw [directionOf_red hp]
    simp [hp]
  · rw [directionOf_blue hp]
    simp [hp]

theorem mem_diagonalMovesOf_iff {piece : Piece} {sq : Square} :
    sq ∈ diagonalMovesOf piece ↔
      ((sq.row - piece.position.row = directionOf piece ∨
          (piece.crowned = true ∧
            sq.row - piece.position.row = - directionOf piece)) ∧
        (sq.col - piece.position.col = 1 ∨
          sq.col - piece.position.col = -1)) := by
  cases sq with
  | mk srow scol =>
    by_cases hcr : piece.crowned <;>
      rcases directionOf_cases piece with hd | hd <;>
        simp [diagonalMovesOf, hcr, hd, Square.mk.injEq] <;> omega

theorem mem_captureMovesOf_iff {piece : Piece} {cand : CaptureCand} :
    cand ∈ captureMovesOf piece ↔
      (((cand.midRow - piece.position.row = directionOf piece ∧
          cand.endRow - piece.position.row = 2 * directionOf piece) ∨
        (piece.crowned = true ∧
          cand.midRow - piece.position.row = - directionOf piece ∧
          cand.endRow - piece.position.row = - (2 * directionOf piece))) ∧
       ((cand.midCol - piece.position.col = -1 ∧
          cand.endCol - piece.position.col = -2) ∨
        (cand.midCol - piece.position.col = 1 ∧
          cand.endCol - piece.position.col = 2))) := by
  cases cand with
  | mk mr mc er ec =>
    by_cases hcr : piece.crowned <;>
      rcases directionOf_cases piece with hd | hd <;>
        simp [captureMovesOf, hcr, hd, CaptureCand.mk.injEq] <;> omega

theorem mem_pancakePossibleMovesOf_iff {piece : Piece} {sq : Square} :
    sq ∈ pancakePossibleMovesOf piece ↔
      (((sq.row - piece.position.row = 1 ∨ sq.row - piece.position.row = -1) ∧
        (sq.col - piece.position.col = 1 ∨ sq.col - piece.position.col = -1)) ∨
       (sq.row - piece.position.row = 0 ∧
        (sq.col - piece.position.col = 1 ∨ sq.col - piece.position.col = -1))) := by
  cases sq with
  | mk srow scol =>
    simp [pancakePossibleMovesOf, Square.mk.injEq]
    omega

theorem mem_pancakeCaptureDirectionsOf_iff {piece : Piece}
    {cand : CaptureCand} :
    cand ∈ pancakeCaptureDirectionsOf piece ↔
      ((((cand.midRow - piece.position.row = 1 ∧
           cand.endRow - piece.position.row = 2) ∨
          (cand.midRow - piece.position.row = -1 ∧
           cand.endRow - piece.position.row = -2)) ∧
         ((cand.midCol - piece.position.col = 1 ∧
           cand.endCol - piece.position.col = 2) ∨
          (cand.midCol - piece.position.col = -1 ∧
           cand.endCol - piece.position.col = -2))) ∨
       ((cand.midRow - piece.position.row = 0 ∧
         cand.endRow - piece.position.row = 0) ∧
        ((cand.midCol - piece.position.col = 1 ∧
          cand.endCol - piece.position.col = 2) ∨
         (cand.midCol - piece.position.col = -1 ∧
          cand.endCol - piece.position.col = -2)))) := by
  cases cand with
  | mk mr mc er ec =>
    simp [pancakeCaptureDirectionsOf, CaptureCand.mk.injEq]
    omega

theorem capKept_extract {b : BoardArr} {piece : Piece} {cand : CaptureCand}
    (hWF : BoardWF b) (hm0 : 0 ≤ cand.midRow) (hm8 : cand.midRow < 8)
    (hn0 : 0 ≤ cand.midCol) (hn8 : cand.midCol < 8)
    (hk : capKept b piece cand) :
    ∃ q, readCell b cand.midRow cand.midCol = .ok (some (some q)) ∧
      q.player ≠ piece.player ∧
      inBounds cand.endRow cand.endCol = true ∧
      readCell b cand.endRow cand.endCol = .ok (some none) := by
  obtain ⟨hin, ⟨midv, hmidv, hcond⟩, hend⟩ := hk
  obtain ⟨cell, hcell⟩ := readCell_ok_of_WF hWF hm0 hm8 hn0 hn8
  rw [hmidv] at hcell
  have hv : midv = some cell := by
    cases hcell
    rfl
  subst hv
  rcases cell with - | q
  · simp [neNull] at hcond
  · refine ⟨q, hmidv, ?_, hin, hend⟩
    simp [neNull, playerOfCell] at hcond
    exact hcond

theorem capKept_intro {b : BoardArr} {piece : Piece} {cand : CaptureCand}
    {q : Piece}
    (hmid : readCell b cand.midRow cand.midCol = .ok (some (some q)))
    (hne : q.player ≠ piece.player)
    (hin : inBounds cand.endRow cand.endCol = true)
    (hend : readCell b cand.endRow cand.endCol = .ok (some none)) :
    capKept b piece cand :=
  ⟨hin, ⟨some (some q), hmid, by simp [neNull, playerOfCell, hne]⟩, hend⟩


/-- On a well-formed board, for an on-board piece, the kept normal
candidates are exactly the squares satisfying the validator geometry
(`normalGeom`) that are in bounds and empty. -/
theorem normalCands_iff_geom {b : BoardArr} {piece : Piece}
    (hWF : BoardWF b) (hpos : posInBounds piece) (sq : Square) :
    ((sq ∈ diagonalMovesOf piece ∧ inBounds sq.row sq.col = true ∧
        readCell b sq.row sq.col = .ok (some none)) ∨
      ∃ cand ∈ captureMovesOf piece, sq = ⟨cand.endRow, cand.endCol⟩ ∧
        capKept b piece cand) ↔
    (normalGeom b piece sq ∧ inBounds sq.row sq.col = true ∧
      readCell b sq.row sq.col = .ok (some none)) := by
  obtain ⟨hr0, hr8, hc0, hc8⟩ := hpos
  have hdabs := directionOf_cases piece
  constructor
  · rintro (⟨hmemd, hin, hcell⟩ | ⟨cand, hcand, rfl, hk⟩)
    · refine ⟨Or.inl ?_, hin, hcell⟩
      obtain ⟨hrow, hcol⟩ := mem_diagonalMovesOf_iff.mp hmemd
      refine ⟨?_, ?_, ?_⟩
      · rcases hrow with h | ⟨-, h⟩ <;> rcases hdabs with hd | hd <;> omega
      · rcases hcol with h | h <;> omega
      · rcases hrow with h | ⟨hcr, -⟩
        · right
          rw [isForwardDir_iff_sign, h]
          rcases hdabs with hd | hd <;> rw [hd] <;> norm_num
        · exact Or.inl hcr
    · obtain ⟨hrow, hcol⟩ := mem_captureMovesOf_iff.mp hcand
      have hin : inBounds cand.endRow cand.endCol = true := hk.1
      obtain ⟨he0, he8, hf0, hf8⟩ := inBounds_iff.mp hin
      have hm08 : 0 ≤ cand.midRow ∧ cand.midRow < 8 := by
        rcases hrow with ⟨h1, h2⟩ | ⟨-, h1, h2⟩ <;>
          rcases hdabs with hd | hd <;> omega
      have hn08 : 0 ≤ cand.midCol ∧ cand.midCol < 8 := by
        rcases hcol with ⟨h1, h2⟩ | ⟨h1, h2⟩ <;> omega
      obtain ⟨q, hmid, hne, -, hend⟩ :=
        capKept_extract hWF hm08.1 hm08.2 hn08.1 hn08.2 hk
      refine ⟨Or.inr ⟨?_, ?_, ?_, q, ?_, hne⟩, hin, hend⟩
      · rcases hrow with ⟨-, h2⟩ | ⟨-, -, h2⟩ <;>
          rcases hdabs with hd | hd <;> dsimp <;> omega
      · rcases hcol with ⟨-, h2⟩ | ⟨-, h2⟩ <;> dsimp <;> omega
      · rcases hrow with ⟨-, h2⟩ | ⟨hcr, -, -⟩
        · right
          rw [isForwardDir_iff_sign]
          dsimp
          rcases hdabs with hd | hd <;> rw [hd] at h2 ⊢ <;> omega
        · exact Or.inl hcr
      · have hmr : piece.position.row +
            ((⟨cand.endRow, cand.endCol⟩ : Square).row - piece.position.row) / 2 =
              cand.midRow := by
          rcases hrow with ⟨h1, h2⟩ | ⟨-, h1, h2⟩ <;>
            rcases hdabs with hd | hd <;> dsimp <;> omega
        have hmc : piece.position.col +
            ((⟨cand.endRow, cand.endCol⟩ : Square).col - piece.position.col) / 2 =
              cand.midCol := by
          rcases hcol with ⟨h1, h2⟩ | ⟨h1, h2⟩ <;> dsimp <;> omega
        rw [hmr, hmc]
        exact hmid
  · rintro ⟨hgeom, hin, hcell⟩
    rcases hgeom with ⟨h1r, h1c, hcf⟩ | ⟨h2r, h2c, hcf, q, hq, hne⟩
    · left
      refine ⟨mem_diagonalMovesOf_iff.mpr ⟨?_, by omega⟩, hin, hcell⟩
      by_cases hdr : sq.row - piece.position.row = directionOf piece
      · exact Or.inl hdr
      · rcases hcf with hcr | hfwd
        · refine Or.inr ⟨hcr, ?_⟩
          rcases hdabs with hd | hd <;> omega
        · rw [isForwardDir_iff_sign] at hfwd
          rcases hdabs with hd | hd <;> rw [hd] at hfwd hdr <;> omega
    · right
      refine ⟨⟨piece.position.row + (sq.row - piece.position.row) / 2,
        piece.position.col + (sq.col - piece.position.col) / 2,
        sq.row, sq.col⟩, ?_, ?_, ?_⟩
      · apply mem_captureMovesOf_iff.mpr
        constructor
        · by_cases hdr : sq.row - piece.position.row = 2 * directionOf piece
          · left
            constructor
            · dsimp
              rcases hdabs with hd | hd <;> rw [hd] at hdr ⊢ <;> omega
            · dsimp
              omega
          · rcases hcf with hcr | hfwd
            · refine Or.inr ⟨hcr, ?_, ?_⟩
              · dsimp
                rcases hdabs with hd | hd <;> rw [hd] at hdr ⊢ <;> omega
              · dsimp
                rcases hdabs with hd | hd <;> rw [hd] at hdr ⊢ <;> omega
            · rw [isForwardDir_iff_sign] at hfwd
              rcases hdabs with hd | hd <;> rw [hd] at hfwd hdr <;> omega
        · dsimp
          omega
      · cases sq
        rfl
      · exact capKept_intro hq hne hin hcell

/-- On a well-formed board, for an on-board piece, the kept pancake
candidates are exactly the squares satisfying the pancake validator
geometry that are in bounds and empty. -/
theorem pancakeCands_iff_geom {b : BoardArr} {piece : Piece}
    (hWF : BoardWF b) (hpos : posInBounds piece) (sq : Square) :
    ((sq ∈ pancakePossibleMovesOf piece ∧ inBounds sq.row sq.col = true ∧
        readCell b sq.row sq.col = .ok (some none)) ∨
      ∃ cand ∈ pancakeCaptureDirectionsOf piece,
        sq = ⟨cand.endRow, cand.endCol⟩ ∧ capKept b piece cand) ↔
    ((((sq.row - piece.position.row).natAbs = 1 ∧
        (sq.col - piece.position.col).natAbs = 1) ∨
      ((sq.row - piece.position.row).natAbs = 0 ∧
        (sq.col - piece.position.col).natAbs = 1) ∨
      (((sq.row - piece.position.row).natAbs = 2 ∧
          (sq.col - piece.position.col).natAbs = 2) ∨
        ((sq.row - piece.position.row).natAbs = 0 ∧
          (sq.col - piece.position.col).natAbs = 2)) ∧
        ∃ q, readCell b (piece.position.row + (sq.row - piece.position.row) / 2)
              (piece.position.col + (sq.col - piece.position.col) / 2) =
            .ok (some (some q)) ∧ q.player ≠ piece.player) ∧
      inBounds sq.row sq.col = true ∧
      readCell b sq.row sq.col = .ok (some none)) := by
  obtain ⟨hr0, hr8, hc0, hc8⟩ := hpos
  constructor
  · rintro (⟨hmemd, hin, hcell⟩ | ⟨cand, hcand, rfl, hk⟩)
    · refine ⟨?_, hin, hcell⟩
      rcases mem_pancakePossibleMovesOf_iff.mp hmemd with ⟨h1, h2⟩ | ⟨h1, h2⟩
      · exact Or.inl ⟨by omega, by omega⟩
      · exact Or.inr (Or.inl ⟨by omega, by omega⟩)
    · have hin2 : inBounds cand.endRow cand.endCol = true := hk.1
      obtain ⟨he0, he8, hf0, hf8⟩ := inBounds_iff.mp hin2
      rcases mem_pancakeCaptureDirectionsOf_iff.mp hcand with
        ⟨hrow, hcol⟩ | ⟨⟨hml, hel⟩, hcol⟩
      · have hm08 : 0 ≤ cand.midRow ∧ cand.midRow < 8 := by
          rcases hrow with ⟨h1, h2⟩ | ⟨h1, h2⟩ <;> omega
        have hn08 : 0 ≤ cand.midCol ∧ cand.midCol < 8 := by
          rcases hcol with ⟨h1, h2⟩ | ⟨h1, h2⟩ <;> omega
        obtain ⟨q, hmid, hne, -, hend⟩ :=
          capKept_extract hWF hm08.1 hm08.2 hn08.1 hn08.2 hk
        refine ⟨Or.inr (Or.inr ⟨Or.inl ⟨?_, ?_⟩, q, ?_, hne⟩), hin2, hend⟩
        · dsimp
          rcases hrow with ⟨-, h⟩ | ⟨-, h⟩ <;> omega
        · dsimp
          rcases hcol with ⟨-, h⟩ | ⟨-, h⟩ <;> omega
        · have hmr : piece.position.row +
              ((⟨cand.endRow, cand.endCol⟩ : Square).row -
                piece.position.row) / 2 = cand.midRow := by
            rcases hrow with ⟨h1, h2⟩ | ⟨h1, h2⟩ <;> dsimp <;> omega
          have hmc : piece.position.col +
              ((⟨cand.endRow, cand.endCol⟩ : Square).col -
                piece.position.col) / 2 = cand.midCol := by
            rcases hcol with ⟨h1, h2⟩ | ⟨h1, h2⟩ <;> dsimp <;> omega
          rw [hmr, hmc]
          exact hmid
      · have hm08 : 0 ≤ cand.midRow ∧ cand.midRow < 8 := by omega
        have hn08 : 0 ≤ cand.midCol ∧ cand.midCol < 8 := by
          rcases hcol with ⟨h1, h2⟩ | ⟨h1, h2⟩ <;> omega
        obtain ⟨q, hmid, hne, -, hend⟩ :=
          capKept_extract hWF hm08.1 hm08.2 hn08.1 hn08.2 hk
        refine ⟨Or.inr (Or.inr ⟨Or.inr ⟨?_, ?_⟩, q, ?_, hne⟩), hin2, hend⟩
        · dsimp
          omega
        · dsimp
          rcases hcol with ⟨-, h⟩ | ⟨-, h⟩ <;> omega
        · have hmr : piece.position.row +
              ((⟨cand.endRow, cand.endCol⟩ : Square).row -
                piece.position.row) / 2 = cand.midRow := by
            dsimp
            omega
          have hmc : piece.position.col +
              ((⟨cand.endRow, cand.endCol⟩ : Square).col -
                piece.position.col) / 2 = cand.midCol := by
            rcases hcol with ⟨h1, h2⟩ | ⟨h1, h2⟩ <;> dsimp <;> omega
          rw [hmr, hmc]
          exact hmid
  · rintro ⟨hgeom, hin, hcell⟩
    rcases hgeom with ⟨h1, h2⟩ | ⟨h1, h2⟩ | ⟨hgg, q, hq, hne⟩
    · exact Or.inl ⟨mem_pancakePossibleMovesOf_iff.mpr
        (Or.inl ⟨by omega, by omega⟩), hin, hcell⟩
    · exact Or.inl ⟨mem_pancakePossibleMovesOf_iff.mpr
        (Or.inr ⟨by omega, by omega⟩), hin, hcell⟩
    · right
      refine ⟨⟨piece.position.row + (sq.row - piece.position.row) / 2,
        piece.position.col + (sq.col - piece.position.col) / 2,
        sq.row, sq.col⟩, ?_, ?_, ?_⟩
      · apply mem_pancakeCaptureDirectionsOf_iff.mpr
        rcases hgg with ⟨hd2, hc2⟩ | ⟨hd0, hc2⟩
        · exact Or.inl ⟨by dsimp; omega, by dsimp; omega⟩
        · exact Or.inr ⟨by dsimp; omega, by dsimp; omega⟩
      · cases sq
        rfl
      · exact capKept_intro hq hne hin hcell


/-! ## Validator–generator agreement -/

/-- Membership of a square in a generator result that may have thrown. -/
def moveListContains (e : Except Unit (List Square)) (sq : Square) : Bool :=
  match e with
  | .ok ms => decide (sq ∈ ms)
  | .error _ => false

theorem moveListContains_iff {e : Except Unit (List Square)} {sq : Square} :
    moveListContains e sq = true ↔ ∃ ms, e = .ok ms ∧ sq ∈ ms := by
  cases e with
  | error e => simp [moveListContains]
  | ok ms => simp [moveListContains]

/-- Soundness: every destination `isValidMove` accepts (with the origin at
the piece's position) is in the per-variant generator output. -/
theorem isValidMove_sound {b : BoardArr} {piece : Piece} {toSq : Square}
    {hist : List Move} (hWF : BoardWF b) (hpos : posInBounds piece)
    (hhist : HistoryOk hist)
    (h : isValidMove b piece.position toSq piece = .ok true) :
    ∃ ms, generatorMoves b hist piece = .ok ms ∧ toSq ∈ ms := by
  obtain ⟨hcell, hnb, hvv⟩ := (isValidMove_ok_true_iff b piece toSq).mp h
  have hin : inBounds toSq.row toSq.col = true := by
    rw [inBounds_iff]
    omega
  unfold variantValid at hvv
  unfold generatorMoves
  revert hvv
  cases htyp : piece.type <;> intro hvv
  case normal =>
    obtain ⟨ms, hms, hchar⟩ := getNormalMoves_spec hWF hpos
    refine ⟨ms, hms, (hchar toSq).mpr ?_⟩
    apply (normalCands_iff_geom hWF hpos toSq).mpr
    exact ⟨(isValidNormalMove_ok_true_iff b piece toSq).mp hvv, hin, hcell⟩
  case bagel =>
    obtain ⟨nm, hnm, hbag⟩ := getBagelMoves_spec hWF hpos hhist
    obtain ⟨ms, hms, hchar⟩ := getNormalMoves_spec hWF hpos
    have hmseq : nm = ms := by
      rw [hms] at hnm
      cases hnm
      rfl
    subst hmseq
    refine ⟨nm ++ bagelSpecial b piece hist, hbag, ?_⟩
    apply List.mem_append_left
    apply (hchar toSq).mpr
    apply (normalCands_iff_geom hWF hpos toSq).mpr
    have hnv : isValidNormalMove b piece.position toSq piece = .ok true :=
      (isValidBagelMove_ok_true_iff b piece piece.position toSq).mp hvv
    exact ⟨(isValidNormalMove_ok_true_iff b piece toSq).mp hnv, hin, hcell⟩
  case pancake =>
    obtain ⟨ms, hms, hchar⟩ := getPancakeMoves_spec hWF hpos
    refine ⟨ms, hms, (hchar toSq).mpr ?_⟩
    apply (pancakeCands_iff_geom hWF hpos toSq).mpr
    refine ⟨?_, hin, hcell⟩
    rcases (isValidPancakeMove_ok_true_iff b piece toSq).mp hvv with hg | hg
    · rcases hg with ⟨h1, h2, -⟩ | ⟨h1, h2, -, q, hq, hne⟩
      · exact Or.inl ⟨h1, h2⟩
      · exact Or.inr (Or.inr ⟨Or.inl ⟨h1, h2⟩, q, hq, hne⟩)
    · rcases hg with ⟨h1, h2, hc⟩ | ⟨h1, h2, q, hq, hne⟩
      · exact Or.inr (Or.inl ⟨h1, h2⟩)
      · refine Or.inr (Or.inr ⟨Or.inr ⟨h1, h2⟩, q, ?_, hne⟩)
        have hz : toSq.row - piece.position.row = 0 := by omega
        rw [hz]
        norm_num
        exact hq
  case bomb => exact hvv.elim
  case vinyl => exact hvv.elim
  case flyingDisk => exact hvv.elim

/-- Completeness for the normal variant: every square in `getNormalMoves`
output is accepted by `isValidMove`. -/
theorem getNormalMoves_mem_valid {b : BoardArr} {piece : Piece}
    {toSq : Square} {ms : List Square}
    (hWF : BoardWF b) (hpos : posInBounds piece)
    (htyp : piece.type = PieceType.normal)
    (hms : getNormalMoves b piece = .ok ms) (hmem : toSq ∈ ms) :
    isValidMove b piece.position toSq piece = .ok true := by
  obtain ⟨ms2, hms2, hchar⟩ := getNormalMoves_spec hWF hpos
  have hmseq : ms2 = ms := by
    rw [hms] at hms2
    cases hms2
    rfl
  subst hmseq
  obtain ⟨hgeom, hin, hcell⟩ :=
    (normalCands_iff_geom hWF hpos toSq).mp ((hchar toSq).mp hmem)
  apply (isValidMove_ok_true_iff b piece toSq).mpr
  obtain ⟨hb0, hb1, hb2, hb3⟩ := inBounds_iff.mp hin
  refine ⟨hcell, by omega, ?_⟩
  unfold variantValid
  rw [htyp]
  exact (isValidNormalMove_ok_true_iff b piece toSq).mpr hgeom


/-! ## Win-condition scan -/

theorem historyOk_nil : HistoryOk [] := by
  intro lm h
  cases h

theorem consistent_readCell {b : BoardArr} (hcons : PositionsConsistent b)
    {r c : Int} {p : Piece} (hr0 : 0 ≤ r) (hr8 : r < 8) (hc0 : 0 ≤ c)
    (hc8 : c < 8) (h : readCell b r c = .ok (some (some p))) :
    p.position.row = r ∧ p.position.col = c := by
  have hc1 := hcons ⟨r.toNat, by omega⟩ ⟨c.toNat, by omega⟩
  unfold cellConsistent at hc1
  have hr' : ((⟨r.toNat, by omega⟩ : Fin 8) : Int) = r := by
    simp [Int.toNat_of_nonneg hr0]
  have hcc : ((⟨c.toNat, by omega⟩ : Fin 8) : Int) = c := by
    simp [Int.toNat_of_nonneg hc0]
  rw [hr', hcc, h] at hc1
  exact decide_eq_true_eq.mp hc1

theorem consistent_posInBounds {b : BoardArr}
    (hcons : PositionsConsistent b) {r c : Int} {p : Piece}
    (hr0 : 0 ≤ r) (hr8 : r < 8) (hc0 : 0 ≤ c) (hc8 : c < 8)
    (h : readCell b r c = .ok (some (some p))) : posInBounds p := by
  obtain ⟨h1, h2⟩ := consistent_readCell hcons hr0 hr8 hc0 hc8 h
  exact ⟨by omega, by omega, by omega, by omega⟩

theorem generatorMoves_ok {b : BoardArr} {piece : Piece} {hist : List Move}
    (hWF : BoardWF b) (hpos : posInBounds piece) (hhist : HistoryOk hist) :
    ∃ ms, generatorMoves b hist piece = .ok ms := by
  unfold generatorMoves
  cases piece.type
  case normal =>
    obtain ⟨ms, hms, -⟩ := getNormalMoves_spec hWF hpos
    exact ⟨ms, hms⟩
  case bagel =>
    obtain ⟨nm, -, hbag⟩ := getBagelMoves_spec hWF hpos hhist
    exact ⟨nm ++ bagelSpecial b piece hist, hbag⟩
  case pancake =>
    obtain ⟨ms, hms, -⟩ := getPancakeMoves_spec hWF hpos
    exact ⟨ms, hms⟩
  case bomb => exact ⟨[], rfl⟩
  case vinyl => exact ⟨[], rfl⟩
  case flyingDisk => exact ⟨[], rfl⟩

theorem allSquares_bounds :
    ∀ rc ∈ allSquares, 0 ≤ rc.1 ∧ rc.1 < 8 ∧ 0 ≤ rc.2 ∧ rc.2 < 8 := by
  decide

/-- Spec-side: the square at `rc` holds a piece of `color` with at least one
generated move (history ignored, as in the win scan). -/
def squareGivesMove (b : BoardArr) (color : PlayerColor) (rc : Int × Int) :
    Bool :=
  match readCell b rc.1 rc.2 with
  | .ok (some (some p)) =>
    decide (p.player = color) &&
      (match generatorMoves b [] p with
       | .ok ms => decide (ms.length > 0)
       | .error _ => false)
  | _ => false

/-- Spec-side: `color` has at least one piece with at least one legal move. -/
def playerHasAnyMove (b : BoardArr) (color : PlayerColor) : Bool :=
  allSquares.any (squareGivesMove b color)

/-- The verdict of the scan given which players still have moves. -/
def winResultOf (redHas blueHas : Bool) : WinResult :=
  if !redHas then ⟨true, some PlayerColor.blue⟩
  else if !blueHas then ⟨true, some PlayerColor.red⟩
  else ⟨false, none⟩

/-- Spec-side model of `checkWinCondition` following §4.4 of the spec:
piece-count exhaustion first (red checked before blue), then
move-availability (red checked before blue). -/
def checkWinConditionSpec (b : BoardArr) (counts : PlayerRec Int) :
    WinResult :=
  if counts.red = 0 then ⟨true, some PlayerColor.blue⟩
  else if counts.blue = 0 then ⟨true, some PlayerColor.red⟩
  else winResultOf (playerHasAnyMove b PlayerColor.red)
    (playerHasAnyMove b PlayerColor.blue)

theorem scanWin_spec {b : BoardArr} (hWF : BoardWF b)
    (hcons : PositionsConsistent b) :
    ∀ (l : List (Int × Int)) (rh bh : Bool),
      (∀ rc ∈ l, 0 ≤ rc.1 ∧ rc.1 < 8 ∧ 0 ≤ rc.2 ∧ rc.2 < 8) →
      scanWin b l rh bh =
        .ok (winResultOf (rh || l.any (squareGivesMove b PlayerColor.red))
                         (bh || l.any (squareGivesMove b PlayerColor.blue))) := by
  intro l
  induction l with
  | nil =>
    intro rh bh _
    simp only [List.any_nil, Bool.or_false]
    cases rh <;> cases bh <;> rfl
  | cons rc rest ih =>
    intro rh bh hb
    obtain ⟨row, col⟩ := rc
    obtain ⟨hr0, hr8, hc0, hc8⟩ := hb (row, col) (List.mem_cons_self _ _)
    obtain ⟨cell, hcell⟩ := readCell_ok_of_WF hWF hr0 hr8 hc0 hc8
    have hrest : ∀ rc ∈ rest, 0 ≤ rc.1 ∧ rc.1 < 8 ∧ 0 ≤ rc.2 ∧ rc.2 < 8 :=
      fun rc hrc => hb rc (List.mem_cons_of_mem _ hrc)
    rcases cell with - | p
    · have hsgm : ∀ color, squareGivesMove b color (row, col) = false := by
        intro color
        unfold squareGivesMove
        rw [hcell]
    
      conv_lhs => unfold scanWin
      rw [hcell]
      show scanWin b rest rh bh = _
      rw [ih rh bh hrest]
      simp [hsgm]
    · have hpos : posInBounds p :=
        consistent_posInBounds hcons hr0 hr8 hc0 hc8 hcell
      obtain ⟨mvs, hmvs⟩ := generatorMoves_ok hWF hpos historyOk_nil
      have hsgm : ∀ color, squareGivesMove b color (row, col) =
          (decide (p.player = color) && decide (mvs.length > 0)) := by
        intro color
        unfold squareGivesMove
        rw [hcell]
        dsimp only
        rw [hmvs]
      conv_lhs => unfold scanWin
      rw [hcell]
      dsimp only
      rw [hmvs]
      dsimp only
      rw [List.any_cons, List.any_cons, hsgm, hsgm]
      cases hp : p.player <;>
        cases hlen : decide (mvs.length > 0) <;>
          cases rh <;> cases bh <;>
            (try rw [ih _ _ hrest]) <;> rfl

theorem checkWinCondition_eq_spec {b : BoardArr} {counts : PlayerRec Int}
    (hWF : BoardWF b) (hcons : PositionsConsistent b) :
    checkWinCondition b counts = .ok (checkWinConditionSpec b counts) := by
  unfold checkWinCondition checkWinConditionSpec
  by_cases h1 : counts.red = 0
  · rw [if_pos h1, if_pos h1]
  · rw [if_neg h1, if_neg h1]
    by_cases h2 : counts.blue = 0
    · rw [if_pos h2, if_pos h2]
    · rw [if_neg h2, if_neg h2]
      rw [scanWin_spec hWF hcons allSquares false false allSquares_bounds]
      unfold playerHasAnyMove
      simp


/-! ## Board updates -/

theorem setCell_spec {b : BoardArr} {r c : Int} (v : Cell)
    (hWF : BoardWF b) (hr0 : 0 ≤ r) (hr8 : r < 8) (hc0 : 0 ≤ c) (hc8 : c < 8) :
    ∃ b2, setCell b r c v = .ok b2 ∧ BoardWF b2 ∧
      readCell b2 r c = .ok (some v) ∧
      ∀ r2 c2 : Int, ¬ (r2 = r ∧ c2 = c) →
        readCell b2 r2 c2 = readCell b r2 c2 := by
  obtain ⟨hlen, hrows⟩ := hWF
  have hrn : r.toNat < b.length := by omega
  obtain ⟨rowArr, hrow⟩ : ∃ x, b.get? r.toNat = some x :=
    ⟨b.get ⟨r.toNat, hrn⟩, List.get?_eq_get hrn⟩
  have hrlen : rowArr.length = 8 := hrows rowArr (List.get?_mem hrow)
  have hcn : c.toNat < rowArr.length := by omega
  refine ⟨b.set r.toNat (rowArr.set c.toNat v), ?_, ⟨?_, ?_⟩, ?_, ?_⟩
  · unfold setCell
    rw [jsIndex_of_lt hr0 hrn, hrow]
    dsimp only
    rw [if_neg (by omega)]
  · rw [List.length_set]
    exact hlen
  · intro rowArr2 hmem
    rcases List.mem_or_eq_of_mem_set hmem with hmem2 | rfl
    · exact hrows rowArr2 hmem2
    · rw [List.length_set]
      exact hrlen
  · unfold readCell
    have hlen2 : r.toNat < (b.set r.toNat (rowArr.set c.toNat v)).length := by
      rw [List.length_set]; exact hrn
    rw [jsIndex_of_lt hr0 hlen2, List.get?_set_eq_of_lt _ hrn]
    dsimp only
    unfold jsIndex
    rw [if_neg (by omega), List.get?_set_eq_of_lt _ hcn]
  · intro r2 c2 hne
    unfold readCell
    by_cases hrr : r2 = r
    · subst hrr
      have hcc : ¬ c2 = c := fun hc => hne ⟨rfl, hc⟩
      have hlen2 : r2.toNat < (b.set r2.toNat (rowArr.set c.toNat v)).length := by
        rw [List.length_set]; exact hrn
      rw [jsIndex_of_lt hr0 hlen2, List.get?_set_eq_of_lt _ hrn,
        jsIndex_of_lt hr0 hrn, hrow]
      dsimp only
      unfold jsIndex
      by_cases hc2 : c2 < 0
      · rw [if_pos hc2, if_pos hc2]
      · rw [if_neg hc2, if_neg hc2]
        rw [List.get?_set_ne]
        intro hx
        apply hcc
        omega
    · unfold jsIndex
      by_cases hr2 : r2 < 0
      · rw [if_pos hr2, if_pos hr2]
      · rw [if_neg hr2, if_neg hr2]
        rw [List.get?_set_ne]
        intro hx
        apply hrr
        omega

/-- `readCell` at natural-number coordinates from `get?` facts. -/
theorem readCell_of_get? {b : BoardArr} {i j : Nat} {rowArr : List Cell}
    {cell : Cell} (hrow : b.get? i = some rowArr)
    (hcell : rowArr.get? j = some cell) :
    readCell b (i : Int) (j : Int) = .ok (some cell) := by
  unfold readCell jsIndex
  have h1 : ¬ ((i : Int) < 0) := by omega
  have h2 : ¬ ((j : Int) < 0) := by omega
  rw [if_neg h1]
  simp only [Int.toNat_natCast, hrow]
  rw [if_neg h2]
  simp only [Int.toNat_natCast, hcell]


/-! ## AI decision engine: totality and membership -/

theorem isValidNormalMove_total {b : BoardArr} {piece : Piece} {toSq : Square}
    (hWF : BoardWF b) (hpos : posInBounds piece)
    (ht : 0 ≤ toSq.row ∧ toSq.row < 8 ∧ 0 ≤ toSq.col ∧ toSq.col < 8) :
    ∃ bb, isValidNormalMove b piece.position toSq piece = .ok bb := by
  obtain ⟨hp0, hp8, hq0, hq8⟩ := hpos
  obtain ⟨ht0, ht8, hu0, hu8⟩ := ht
  unfold isValidNormalMove
  by_cases h1 : (toSq.row - piece.position.row).natAbs = 1 ∧
      (toSq.col - piece.position.col).natAbs = 1
  · rw [if_pos h1]
    exact ⟨_, rfl⟩
  · rw [if_neg h1]
    by_cases h2 : (toSq.row - piece.position.row).natAbs = 2 ∧
        (toSq.col - piece.position.col).natAbs = 2
    · rw [if_pos h2]
      dsimp only
      obtain ⟨cell, hcell⟩ := @readCell_ok_of_WF b hWF
        (piece.position.row + (toSq.row - piece.position.row) / 2)
        (piece.position.col + (toSq.col - piece.position.col) / 2)
        (by omega) (by omega) (by omega) (by omega)
      rw [hcell]
      dsimp only
      by_cases hcf : (piece.crowned ||
          decide ((piece.player = PlayerColor.red ∧
              toSq.row - piece.position.row > 0) ∨
            (piece.player = PlayerColor.blue ∧
              toSq.row - piece.position.row < 0))) = true
      · rw [if_pos hcf]
        rcases cell with - | q
        · exact ⟨false, rfl⟩
        · exact ⟨_, rfl⟩
      · rw [if_neg hcf]
        exact ⟨false, rfl⟩
    · rw [if_neg h2]
      exact ⟨false, rfl⟩

theorem isValidPancakeMove_total {b : BoardArr} {piece : Piece}
    {toSq : Square} (hWF : BoardWF b) (hpos : posInBounds piece)
    (ht : 0 ≤ toSq.row ∧ toSq.row < 8 ∧ 0 ≤ toSq.col ∧ toSq.col < 8) :
    ∃ bb, isValidPancakeMove b piece.position toSq piece = .ok bb := by
  obtain ⟨hp0, hp8, hq0, hq8⟩ := hpos
  obtain ⟨ht0, ht8, hu0, hu8⟩ := ht
  obtain ⟨bn, hbn⟩ := isValidNormalMove_total hWF
    ⟨hp0, hp8, hq0, hq8⟩ ⟨ht0, ht8, hu0, hu8⟩
  unfold isValidPancakeMove
  rw [hbn]
  cases bn
  · try dsimp only
    by_cases hL1 : (toSq.row - piece.position.row).natAbs = 0 ∧
        (toSq.col - piece.position.col).natAbs = 1
    · rw [if_pos hL1]
      obtain ⟨cell, hcell⟩ := readCell_ok_of_WF hWF ht0 ht8 hu0 hu8
      rw [hcell]
      rcases cell with - | q
      · exact ⟨true, rfl⟩
      · exact ⟨false, rfl⟩
    · rw [if_neg hL1]
      by_cases hL2 : (toSq.row - piece.position.row).natAbs = 0 ∧
          (toSq.col - piece.position.col).natAbs = 2
      · rw [if_pos hL2]
        try dsimp only
        obtain ⟨cell, hcell⟩ := @readCell_ok_of_WF b hWF
          piece.position.row
          (piece.position.col + (toSq.col - piece.position.col) / 2)
          hp0 hp8 (by omega) (by omega)
        rw [hcell]
        rcases cell with - | q
        · exact ⟨false, rfl⟩
        · exact ⟨_, rfl⟩
      · rw [if_neg hL2]
        exact ⟨false, rfl⟩
  · exact ⟨true, rfl⟩

theorem isValidMove_total {b : BoardArr} {piece : Piece} {toSq : Square}
    (hWF : BoardWF b) (hpos : posInBounds piece)
    (ht : 0 ≤ toSq.row ∧ toSq.row < 8 ∧ 0 ≤ toSq.col ∧ toSq.col < 8) :
    ∃ bb, isValidMove b piece.position toSq piece = .ok bb := by
  obtain ⟨ht0, ht8, hu0, hu8⟩ := ht
  unfold isValidMove
  obtain ⟨cell, hcell⟩ := readCell_ok_of_WF hWF ht0 ht8 hu0 hu8
  rw [hcell]
  dsimp only
  by_cases hnn : neNull (some cell) = true
  · rw [if_pos hnn]
    exact ⟨false, rfl⟩
  · rw [if_neg hnn]
    rw [if_neg (by simp; omega)]
    cases piece.type
    · exact isValidNormalMove_total hWF hpos ⟨ht0, ht8, hu0, hu8⟩
    · obtain ⟨bn, hbn⟩ := isValidNormalMove_total hWF hpos ⟨ht0, ht8, hu0, hu8⟩
      unfold isValidBagelMove
      rw [hbn]
      cases bn
      · exact ⟨false, rfl⟩
      · exact ⟨true, rfl⟩
    · exact isValidPancakeMove_total hWF hpos ⟨ht0, ht8, hu0, hu8⟩
    · exact ⟨false, rfl⟩
    · exact ⟨false, rfl⟩
    · exact ⟨false, rfl⟩

theorem gvmAux_spec {b : BoardArr} {piece : Piece}
    (hWF : BoardWF b) (hpos : posInBounds piece) :
    ∀ l : List (Int × Int),
      (∀ rc ∈ l, 0 ≤ rc.1 ∧ rc.1 < 8 ∧ 0 ≤ rc.2 ∧ rc.2 < 8) →
      ∃ vs, gvmAux piece b l = .ok vs ∧
        ∀ sq ∈ vs, isValidMove b piece.position sq piece = .ok true := by
  intro l
  induction l with
  | nil =>
    intro _
    exact ⟨[], rfl, by simp⟩
  | cons rc rest ih =>
    intro hb
    obtain ⟨row, col⟩ := rc
    obtain ⟨hr0, hr8, hc0, hc8⟩ := hb (row, col) (List.mem_cons_self _ _)
    obtain ⟨vs, hvs, hmem⟩ := ih fun rc hrc => hb rc (List.mem_cons_of_mem _ hrc)
    obtain ⟨cell, hcell⟩ := readCell_ok_of_WF hWF hr0 hr8 hc0 hc8
    obtain ⟨bb, hbb⟩ := @isValidMove_total b piece ⟨row, col⟩ hWF hpos
      ⟨hr0, hr8, hc0, hc8⟩
    by_cases hskip : (match (some cell : Option Cell) with
        | some (some t) => decide (t.player = piece.player)
        | _ => false) = true
    · refine ⟨vs, ?_, hmem⟩
      unfold gvmAux
      rw [hcell]
      dsimp only
      rw [if_pos hskip]
      exact hvs
    · cases bb
      · refine ⟨vs, ?_, hmem⟩
        unfold gvmAux
        rw [hcell]
        dsimp only
        rw [if_neg hskip, hbb]
        exact hvs
      · refine ⟨⟨row, col⟩ :: vs, ?_, ?_⟩
        · unfold gvmAux
          rw [hcell]
          dsimp only
          rw [if_neg hskip, hbb, hvs]
        · intro sq hsq
          rcases List.mem_cons.mp hsq with rfl | hsq'
          · exact hbb
          · exact hmem sq hsq'

theorem getValidMovesForPieceAI_spec {b : BoardArr} {piece : Piece}
    (hWF : BoardWF b) (hpos : posInBounds piece) :
    ∃ vs, getValidMovesForPieceAI piece b = .ok vs ∧
      ∀ sq ∈ vs, isValidMove b piece.position sq piece = .ok true :=
  gvmAux_spec hWF hpos allSquares allSquares_bounds

theorem collectMoves_spec {b : BoardArr} (hWF : BoardWF b) :
    ∀ pieces : List Piece, (∀ p ∈ pieces, posInBounds p) →
      ∃ pairs, collectMoves b pieces = .ok pairs ∧
        ∀ pr ∈ pairs, pr.1 ∈ pieces ∧
          isValidMove b pr.1.position pr.2 pr.1 = .ok true := by
  intro pieces
  induction pieces with
  | nil =>
    intro _
    exact ⟨[], rfl, by simp⟩
  | cons p rest ih =>
    intro hpos
    obtain ⟨pairs, hpairs, hmem⟩ := ih fun q hq => hpos q (List.mem_cons_of_mem _ hq)
    obtain ⟨vs, hvs, hval⟩ :=
      getValidMovesForPieceAI_spec hWF (hpos p (List.mem_cons_self _ _))
    refine ⟨(vs.map fun move => (p, move)) ++ pairs, ?_, ?_⟩
    · unfold collectMoves
      rw [hvs, hpairs]
    · intro pr hpr
      rcases List.mem_append.mp hpr with hl | hr
      · obtain ⟨move, hmv, rfl⟩ := List.mem_map.mp hl
        exact ⟨List.mem_cons_self _ _, hval move hmv⟩
      · obtain ⟨h1, h2⟩ := hmem pr hr
        exact ⟨List.mem_cons_of_mem _ h1, h2⟩


theorem rowFold_mem {playerColor : PlayerColor} {p : Piece} :
    ∀ (rowArr : List Cell) (acc : List Piece),
      p ∈ rowArr.foldl (fun acc2 cell =>
        match cell with
        | some q => if q.player = playerColor then acc2 ++ [q] else acc2
        | none => acc2) acc →
      p ∈ acc ∨ ((some p : Cell) ∈ rowArr ∧ p.player = playerColor) := by
  intro rowArr
  induction rowArr with
  | nil =>
    intro acc h
    exact Or.inl h
  | cons cell rest ih =>
    intro acc h
    rw [List.foldl_cons] at h
    rcases cell with - | q
    all_goals dsimp only at h
    · rcases ih acc h with h1 | ⟨h1, h2⟩
      · exact Or.inl h1
      · exact Or.inr ⟨List.mem_cons_of_mem _ h1, h2⟩
    · by_cases hq : q.player = playerColor
      · rw [if_pos hq] at h
        rcases ih (acc ++ [q]) h with h1 | ⟨h1, h2⟩
        · rcases List.mem_append.mp h1 with h2 | h2
          · exact Or.inl h2
          · rcases List.mem_singleton.mp h2 with rfl
            exact Or.inr ⟨List.mem_cons_self _ _, hq⟩
        · exact Or.inr ⟨List.mem_cons_of_mem _ h1, h2⟩
      · rw [if_neg hq] at h
        rcases ih acc h with h1 | ⟨h1, h2⟩
        · exact Or.inl h1
        · exact Or.inr ⟨List.mem_cons_of_mem _ h1, h2⟩

theorem mem_getAIPieces {b : BoardArr} {playerColor : PlayerColor} {p : Piece}
    (h : p ∈ getAIPieces b playerColor) :
    p.player = playerColor ∧ ∃ rowArr ∈ b, (some p : Cell) ∈ rowArr := by
  unfold getAIPieces at h
  suffices hsuf : ∀ (rows : List (List Cell)) (acc : List Piece),
      p ∈ rows.foldl (fun acc rowArr =>
        rowArr.foldl (fun acc2 cell =>
          match cell with
          | some q => if q.player = playerColor then acc2 ++ [q] else acc2
          | none => acc2) acc) acc →
      p ∈ acc ∨ (p.player = playerColor ∧ ∃ rowArr ∈ rows, (some p : Cell) ∈ rowArr) by
    rcases hsuf b [] h with h1 | h1
    · cases h1
    · exact h1
  intro rows
  induction rows with
  | nil =>
    intro acc h
    exact Or.inl h
  | cons rowArr rest ih =>
    intro acc h
    rw [List.foldl_cons] at h
    rcases ih _ h with h1 | ⟨h1, rowArr2, h2, h3⟩
    · rcases rowFold_mem rowArr acc h1 with h2 | ⟨h2, h3⟩
      · exact Or.inl h2
      · exact Or.inr ⟨h3, rowArr, List.mem_cons_self _ _, h2⟩
    · exact Or.inr ⟨h1, rowArr2, List.mem_cons_of_mem _ h2, h3⟩

/-- A piece collected by `getAIPieces` from a well-formed, consistent board
is the AI's and sits on the board with an on-board stored position. -/
theorem getAIPieces_posInBounds {b : BoardArr} {playerColor : PlayerColor}
    {p : Piece} (hWF : BoardWF b) (hcons : PositionsConsistent b)
    (h : p ∈ getAIPieces b playerColor) :
    p.player = playerColor ∧ posInBounds p := by
  obtain ⟨hpl, rowArr, hrow, hcell⟩ := mem_getAIPieces h
  obtain ⟨i, hi⟩ := List.mem_iff_get?.mp hrow
  obtain ⟨j, hj⟩ := List.mem_iff_get?.mp hcell
  have hread := readCell_of_get? hi hj
  obtain ⟨hlen, hrows⟩ := hWF
  have hi8 : i < 8 := by
    have := (List.get?_eq_some.mp hi).1
    omega
  have hj8 : j < 8 := by
    have := (List.get?_eq_some.mp hj).1
    have hrl := hrows rowArr hrow
    omega
  refine ⟨hpl, consistent_posInBounds hcons ?_ ?_ ?_ ?_ hread⟩ <;> omega

/-! ## AI selectMove membership -/

theorem get?_mod_mem {α : Type} {l : List α} (rand : Nat) (hne : l ≠ []) :
    ∃ x, l.get? (rand % l.length) = some x ∧ x ∈ l := by
  have hlen : 0 < l.length := List.length_pos.mpr hne
  have hlt : rand % l.length < l.length := Nat.mod_lt rand hlen
  obtain ⟨x, hx⟩ : ∃ x, l.get? (rand % l.length) = some x :=
    ⟨l.get ⟨_, hlt⟩, List.get?_eq_get hlt⟩
  exact ⟨x, hx, List.get?_mem hx⟩

theorem selectMoveEasy_spec (rand : Nat) (pm : List (Piece × Square)) :
    (selectMoveEasy rand pm = none ↔ pm = []) ∧
    ∀ x, selectMoveEasy rand pm = some x → x ∈ pm := by
  unfold selectMoveEasy
  by_cases hne : pm = []
  · subst hne
    simp
  · rw [if_neg (by simpa using hne)]
    obtain ⟨x, hx, hxm⟩ := get?_mod_mem rand hne
    rw [hx]
    constructor
    · constructor
      · intro hfalse; cases hfalse
      · intro hfalse; exact absurd hfalse hne
    · intro y hy
      cases hy
      exact hxm

theorem selectMoveMedium_spec (rand : Nat) (pm : List (Piece × Square)) :
    (selectMoveMedium rand pm = none ↔ pm = []) ∧
    ∀ x, selectMoveMedium rand pm = some x → x ∈ pm := by
  unfold selectMoveMedium
  by_cases hne : pm = []
  · subst hne
    simp
  · rw [if_neg (by simpa using hne)]
    by_cases hcap : (pm.filter fun moveObj =>
        decide ((moveObj.2.col - moveObj.1.position.col).natAbs = 2)).length > 0
    · rw [if_pos hcap]
      have hcne : (pm.filter fun moveObj =>
          decide ((moveObj.2.col - moveObj.1.position.col).natAbs = 2)) ≠ [] := by
        intro hx
        rw [hx] at hcap
        simp at hcap
      obtain ⟨x, hx, hxm⟩ := get?_mod_mem rand hcne
      rw [hx]
      refine ⟨⟨(fun hfalse => by cases hfalse), fun hfalse => absurd hfalse hne⟩, ?_⟩
      intro y hy
      cases hy
      exact List.mem_of_mem_filter hxm
    · rw [if_neg hcap]
      obtain ⟨x, hx, hxm⟩ := get?_mod_mem rand hne
      rw [hx]
      refine ⟨⟨(fun hfalse => by cases hfalse), fun hfalse => absurd hfalse hne⟩, ?_⟩
      intro y hy
      cases hy
      exact hxm

theorem mem_insertByValue {x y : Piece × Square} :
    ∀ l : List (Piece × Square), y ∈ insertByValue x l → y = x ∨ y ∈ l := by
  intro l
  induction l with
  | nil =>
    intro h
    rcases List.mem_singleton.mp h with rfl
    exact Or.inl rfl
  | cons z rest ih =>
    intro h
    unfold insertByValue at h
    split at h
    · rcases List.mem_cons.mp h with rfl | h2
      · exact Or.inl rfl
      · exact Or.inr h2
    · rcases List.mem_cons.mp h with rfl | h2
      · exact Or.inr (List.mem_cons_self _ _)
      · rcases ih h2 with h3 | h3
        · exact Or.inl h3
        · exact Or.inr (List.mem_cons_of_mem _ h3)

theorem mem_sortByPieceValue {y : Piece × Square} :
    ∀ l : List (Piece × Square), y ∈ sortByPieceValue l → y ∈ l := by
  intro l
  induction l with
  | nil =>
    intro h
    cases h
  | cons x rest ih =>
    intro h
    unfold sortByPieceValue at h
    rcases mem_insertByValue _ h with rfl | h2
    · exact List.mem_cons_self _ _
    · exact List.mem_cons_of_mem _ (ih h2)

theorem insertByValue_ne_nil (x : Piece × Square)
    (l : List (Piece × Square)) : insertByValue x l ≠ [] := by
  cases l with
  | nil => intro h; cases h
  | cons z rest =>
    unfold insertByValue
    split <;> intro h <;> cases h

theorem sortByPieceValue_ne_nil {l : List (Piece × Square)} (h : l ≠ []) :
    sortByPieceValue l ≠ [] := by
  cases l with
  | nil => exact absurd rfl h
  | cons x rest => exact insertByValue_ne_nil x (sortByPieceValue rest)

theorem head?_mem_of_ne_nil {α : Type} {l : List α} (h : l ≠ []) :
    ∃ x, l.head? = some x ∧ x ∈ l := by
  cases l with
  | nil => exact absurd rfl h
  | cons x rest => exact ⟨x, rfl, List.mem_cons_self _ _⟩

theorem selectMoveHard_spec (rand : Nat) (pm : List (Piece × Square)) :
    (selectMoveHard rand pm = none ↔ pm = []) ∧
    ∀ x, selectMoveHard rand pm = some x → x ∈ pm := by
  unfold selectMoveHard
  by_cases hne : pm = []
  · subst hne
    simp
  · rw [if_neg (by simpa using hne)]
    by_cases hcap : (pm.filter fun moveObj =>
        decide ((moveObj.2.col - moveObj.1.position.col).natAbs = 2)).length > 0
    · rw [if_pos hcap]
      have hcne : (pm.filter fun moveObj =>
          decide ((moveObj.2.col - moveObj.1.position.col).natAbs = 2)) ≠ [] := by
        intro hx
        rw [hx] at hcap
        simp at hcap
      obtain ⟨x, hx, hxm⟩ := head?_mem_of_ne_nil (sortByPieceValue_ne_nil hcne)
      rw [hx]
      refine ⟨⟨(fun hfalse => by cases hfalse), fun hfalse => absurd hfalse hne⟩, ?_⟩
      intro y hy
      cases hy
      exact List.mem_of_mem_filter (mem_sortByPieceValue _ hxm)
    · rw [if_neg hcap]
      by_cases hfwd : (pm.filter fun moveObj =>
          !moveObj.1.crowned && decide (moveObj.2.row < moveObj.1.position.row)).length > 0
      · rw [if_pos hfwd]
        have hfne : (pm.filter fun moveObj =>
            !moveObj.1.crowned &&
              decide (moveObj.2.row < moveObj.1.position.row)) ≠ [] := by
          intro hx
          rw [hx] at hfwd
          simp at hfwd
        by_cases hcrown : ((pm.filter fun moveObj =>
            !moveObj.1.crowned &&
              decide (moveObj.2.row < moveObj.1.position.row)).filter
            fun moveObj => decide (moveObj.2.row = 0)).length > 0
        · rw [if_pos hcrown]
          have hcrne : ((pm.filter fun moveObj =>
              !moveObj.1.crowned &&
                decide (moveObj.2.row < moveObj.1.position.row)).filter
              fun moveObj => decide (moveObj.2.row = 0)) ≠ [] := by
            intro hx
            rw [hx] at hcrown
            simp at hcrown
          obtain ⟨x, hx, hxm⟩ := head?_mem_of_ne_nil hcrne
          rw [hx]
          refine ⟨⟨(fun hfalse => by cases hfalse),
            fun hfalse => absurd hfalse hne⟩, ?_⟩
          intro y hy
          cases hy
          exact List.mem_of_mem_filter (List.mem_of_mem_filter hxm)
        · rw [if_neg hcrown]
          by_cases hcen : ((pm.filter fun moveObj =>
              !moveObj.1.crowned &&
                decide (moveObj.2.row < moveObj.1.position.row)).filter
              fun moveObj =>
                decide (2 ≤ moveObj.2.col ∧ moveObj.2.col ≤ 5)).length > 0
          · rw [if_pos hcen]
            have hcenne : ((pm.filter fun moveObj =>
                !moveObj.1.crowned &&
                  decide (moveObj.2.row < moveObj.1.position.row)).filter
                fun moveObj =>
                  decide (2 ≤ moveObj.2.col ∧ moveObj.2.col ≤ 5)) ≠ [] := by
              intro hx
              rw [hx] at hcen
              simp at hcen
            obtain ⟨x, hx, hxm⟩ := head?_mem_of_ne_nil hcenne
            rw [hx]
            refine ⟨⟨(fun hfalse => by cases hfalse),
              fun hfalse => absurd hfalse hne⟩, ?_⟩
            intro y hy
            cases hy
            exact List.mem_of_mem_filter (List.mem_of_mem_filter hxm)
          · rw [if_neg hcen]
            obtain ⟨x, hx, hxm⟩ := head?_mem_of_ne_nil hfne
            rw [hx]
            refine ⟨⟨(fun hfalse => by cases hfalse),
              fun hfalse => absurd hfalse hne⟩, ?_⟩
            intro y hy
            cases hy
            exact List.mem_of_mem_filter hxm
      · rw [if_neg hfwd]
        obtain ⟨x, hx, hxm⟩ := get?_mod_mem rand hne
        rw [hx]
        refine ⟨⟨(fun hfalse => by cases hfalse),
          fun hfalse => absurd hfalse hne⟩, ?_⟩
        intro y hy
        cases hy
        exact hxm


/-- The per-tier `selectMove` dispatch of `getNextMove`. -/
theorem selectMove_spec (difficulty : AIDifficulty) (rand : Nat)
    (pm : List (Piece × Square)) :
    (selectMoveOf difficulty rand pm = none ↔ pm = []) ∧
    ∀ x, selectMoveOf difficulty rand pm = some x → x ∈ pm := by
  unfold selectMoveOf
  cases difficulty
  · exact selectMoveEasy_spec rand pm
  · exact selectMoveMedium_spec rand pm
  · exact selectMoveHard_spec rand pm

theorem getNextMove_spec (difficulty : AIDifficulty) (rand : Nat)
    (gs : GameState) (hWF : BoardWF gs.board)
    (hcons : PositionsConsistent gs.board)
    (hhist : HistoryOk gs.moveHistory) :
    ∃ pairs,
      collectMoves gs.board (getAIPieces gs.board PlayerColor.blue) = .ok pairs ∧
      ∃ res, getNextMove difficulty rand gs = .ok res ∧
        (gs.currentPlayer ≠ PlayerColor.blue → res = none) ∧
        (gs.currentPlayer = PlayerColor.blue → (res = none ↔ pairs = [])) ∧
        (∀ m, res = some m →
          m.piece.player = PlayerColor.blue ∧
          moveListContains (generatorMoves gs.board gs.moveHistory m.piece)
            m.toSq = true) := by
  have hposall : ∀ p ∈ getAIPieces gs.board PlayerColor.blue, posInBounds p :=
    fun p hp => (getAIPieces_posInBounds hWF hcons hp).2
  obtain ⟨pairs, hpairs, hpmem⟩ :=
    collectMoves_spec hWF (getAIPieces gs.board PlayerColor.blue) hposall
  refine ⟨pairs, hpairs, ?_⟩
  unfold getNextMove
  by_cases hturn : gs.currentPlayer ≠ PlayerColor.blue
  · rw [if_pos hturn]
    exact ⟨none, rfl, fun _ => rfl, fun h => absurd h hturn, fun m h => by cases h⟩
  · rw [if_neg hturn]
    have hturn' : gs.currentPlayer = PlayerColor.blue := by
      by_contra hx
      exact hturn hx
    by_cases hempty : (getAIPieces gs.board PlayerColor.blue).length = 0
    · rw [if_pos hempty]
      have hnil : getAIPieces gs.board PlayerColor.blue = [] :=
        List.length_eq_zero.mp hempty
      have hpairsnil : pairs = [] := by
        rw [hnil] at hpairs
        cases hpairs
        rfl
      refine ⟨none, rfl, fun _ => rfl, fun _ => ?_, fun m h => by cases h⟩
      simp [hpairsnil]
    · rw [if_neg hempty, hpairs]
      dsimp only
      by_cases hpe : pairs.length = 0
      · rw [if_pos hpe]
        have hpairsnil : pairs = [] := List.length_eq_zero.mp hpe
        refine ⟨none, rfl, fun _ => rfl, fun _ => ?_, fun m h => by cases h⟩
        simp [hpairsnil]
      · rw [if_neg hpe]
        have hpne : pairs ≠ [] := by
          intro hx
          rw [hx] at hpe
          exact hpe rfl
        obtain ⟨hnone_iff, hsome_mem⟩ := selectMove_spec difficulty rand pairs
        cases hsel : selectMoveOf difficulty rand pairs with
        | none => exact absurd (hnone_iff.mp hsel) hpne
        | some pr =>
          obtain ⟨piece, move⟩ := pr
          have hmem := hsome_mem (piece, move) hsel
          obtain ⟨hpin, hval⟩ := hpmem (piece, move) hmem
          have hblue : piece.player = PlayerColor.blue :=
            (getAIPieces_posInBounds hWF hcons hpin).1
          have hpos : posInBounds piece :=
            (getAIPieces_posInBounds hWF hcons hpin).2
          refine ⟨some ⟨piece, piece.position, move, none⟩, ?_, ?_, ?_, ?_⟩
          · rfl
          · intro hx
            exact absurd hturn' hx
          · intro _
            constructor
            · intro hfalse
              cases hfalse
            · intro hfalse
              exact absurd hfalse hpne
          · rintro m hm
            cases hm
            refine ⟨hblue, ?_⟩
            obtain ⟨ms, hms, hmsm⟩ :=
              isValidMove_sound hWF hpos hhist hval
            apply moveListContains_iff.mpr
            exact ⟨ms, hms, hmsm⟩


/-! ## Capture resolution -/

/-- The claim's qualifying-jump geometry: a two-square diagonal for any
variant, or a two-square lateral move for a pancake. -/
def qualifyingJump (piece : Piece) (fr toSq : Square) : Prop :=
  ((toSq.row - fr.row).natAbs = 2 ∧ (toSq.col - fr.col).natAbs = 2) ∨
  (piece.type = PieceType.pancake ∧ (toSq.row - fr.row).natAbs = 0 ∧
    (toSq.col - fr.col).natAbs = 2)

instance (piece : Piece) (fr toSq : Square) :
    Decidable (qualifyingJump piece fr toSq) := by
  unfold qualifyingJump
  infer_instance

theorem handleCapture_spec {b : BoardArr} (fr toSq : Square) (piece : Piece)
    (hWF : BoardWF b)
    (hf : 0 ≤ fr.row ∧ fr.row < 8 ∧ 0 ≤ fr.col ∧ fr.col < 8)
    (ht : 0 ≤ toSq.row ∧ toSq.row < 8 ∧ 0 ≤ toSq.col ∧ toSq.col < 8) :
    ∃ res, handleCapture b fr toSq piece = .ok res ∧
      (res.capturedPiece.isSome = true ↔
        (qualifyingJump piece fr toSq ∧
          ∃ q, readCell b (fr.row + (toSq.row - fr.row) / 2)
              (fr.col + (toSq.col - fr.col) / 2) = .ok (some (some q)) ∧
            q.player ≠ piece.player)) ∧
      (∀ q, res.capturedPiece = some q →
        readCell b (fr.row + (toSq.row - fr.row) / 2)
            (fr.col + (toSq.col - fr.col) / 2) = .ok (some (some q)) ∧
          q.player ≠ piece.player ∧
          res.capturedSquare = some ⟨fr.row + (toSq.row - fr.row) / 2,
            fr.col + (toSq.col - fr.col) / 2⟩) := by
  obtain ⟨hf0, hf8, hg0, hg8⟩ := hf
  obtain ⟨ht0, ht8, hu0, hu8⟩ := ht
  have key : ∀ d : Int, (d.natAbs = 2 ∨ d.natAbs = 0) →
      d.sign * (if d.natAbs > 0 then 1 else 0) = d / 2 := by
    intro d hd
    have hd3 : d = 2 ∨ d = -2 ∨ d = 0 := by omega
    rcases hd3 with rfl | rfl | rfl <;> decide
  have key2 : ∀ d : Int, d.natAbs = 2 → d.sign * 1 = d / 2 := by
    intro d hd
    have hd2 : d = 2 ∨ d = -2 := by omega
    rcases hd2 with rfl | rfl <;> decide
  unfold handleCapture
  dsimp only
  by_cases hq : ((toSq.row - fr.row).natAbs = 2 ∧
      (toSq.col - fr.col).natAbs = 2) ∨
    (piece.type = PieceType.pancake ∧ (toSq.row - fr.row).natAbs = 0 ∧
      (toSq.col - fr.col).natAbs = 2)
  case neg =>
    rw [if_neg hq]
    refine ⟨⟨none, none⟩, rfl, ?_, ?_⟩
    · constructor
      · intro hfalse
        exact absurd hfalse (by decide)
      · rintro ⟨hqj, -⟩
        exact absurd hqj hq
    · intro q hq2
      cases hq2
  case pos =>
    rw [if_pos hq]
    have hdr : (toSq.row - fr.row).natAbs = 2 ∨
        (toSq.row - fr.row).natAbs = 0 := by
      rcases hq with ⟨h2, -⟩ | ⟨-, h0, -⟩
      · exact Or.inl h2
      · exact Or.inr h0
    have hdc : (toSq.col - fr.col).natAbs = 2 := by
      rcases hq with ⟨-, h2⟩ | ⟨-, -, h2⟩ <;> exact h2
    rw [key _ hdr, key2 _ hdc]
    have hm0 : 0 ≤ fr.row + (toSq.row - fr.row) / 2 := by
      rcases hdr with h | h <;> omega
    have hm8 : fr.row + (toSq.row - fr.row) / 2 < 8 := by
      rcases hdr with h | h <;> omega
    have hn0 : 0 ≤ fr.col + (toSq.col - fr.col) / 2 := by omega
    have hn8 : fr.col + (toSq.col - fr.col) / 2 < 8 := by omega
    obtain ⟨cell, hcell⟩ := readCell_ok_of_WF hWF hm0 hm8 hn0 hn8
    rw [hcell]
    cases cell with
    | none =>
      refine ⟨⟨none, none⟩, rfl, ?_, ?_⟩
      · constructor
        · intro hfalse
          exact absurd hfalse (by decide)
        · rintro ⟨-, q, hq2, -⟩
          simp at hq2
      · intro q hq2
        cases hq2
    | some p =>
      dsimp only
      by_cases hop : p.player ≠ piece.player
      · rw [if_pos hop]
        refine ⟨_, rfl, ?_, ?_⟩
        · simp only [Option.isSome_some, true_iff]
          exact ⟨hq, p, rfl, hop⟩
        · intro q hq2
          cases hq2
          exact ⟨rfl, hop, rfl⟩
      · rw [if_neg hop]
        refine ⟨⟨none, none⟩, rfl, ?_, ?_⟩
        · constructor
          · intro hfalse
            exact absurd hfalse (by decide)
          · rintro ⟨-, q, hq2, hqne⟩
            simp only [Except.ok.injEq, Option.some.injEq] at hq2
            subst hq2
            exact absurd hqne hop
        · intro q hq2
          cases hq2

theorem handleCapture_total {b : BoardArr} (fr toSq : Square) (piece : Piece)
    (hWF : BoardWF b)
    (hf : 0 ≤ fr.row ∧ fr.row < 8 ∧ 0 ≤ fr.col ∧ fr.col < 8)
    (ht : 0 ≤ toSq.row ∧ toSq.row < 8 ∧ 0 ≤ toSq.col ∧ toSq.col < 8) :
    ∃ res, handleCapture b fr toSq piece = .ok res := by
  obtain ⟨res, hres, -, -⟩ := handleCapture_spec fr toSq piece hWF hf ht
  exact ⟨res, hres⟩


/-! ## State machine: rejected commands and the committed move -/

theorem finishDraft_blocked {s : ContextState}
    (h : draftTotal s.pieceSelections.red ≠ TOTAL_PIECES_PER_PLAYER ∨
      draftTotal s.pieceSelections.blue ≠ TOTAL_PIECES_PER_PLAYER) :
    finishDraft s = s := by
  unfold finishDraft
  dsimp only
  rw [if_pos h]

theorem finishDraft_unblocked {s : ContextState}
    (hr : draftTotal s.pieceSelections.red = TOTAL_PIECES_PER_PLAYER)
    (hb : draftTotal s.pieceSelections.blue = TOTAL_PIECES_PER_PLAYER) :
    (finishDraft s).gameState.phase = GamePhase.placement := by
  unfold finishDraft
  dsimp only
  rw [if_neg (by simp [hr, hb])]

theorem movePiece_noSelection {s : ContextState} (row col : Int)
    (hsel : s.selectedPiece = none) : movePiece s row col = .ok s := by
  unfold movePiece
  rw [hsel]

theorem movePiece_inactive {s : ContextState} {sp : Piece} (row col : Int)
    (hsel : s.selectedPiece = some sp)
    (hact : s.gameState.gameActive = false) :
    movePiece s row col = .ok s := by
  unfold movePiece
  rw [hsel]
  dsimp only
  rw [if_pos hact]

theorem movePiece_notListed {s : ContextState} {sp : Piece} (row col : Int)
    (hsel : s.selectedPiece = some sp)
    (hact : s.gameState.gameActive = true)
    (hmem : (s.validMoves.any fun m =>
      decide (m.row = row) && decide (m.col = col)) = false) :
    movePiece s row col = .ok s := by
  unfold movePiece
  rw [hsel]
  dsimp only
  rw [if_neg (by simp [hact])]
  rw [hmem]
  rfl

/-- The committed move: under the three guards, on a well-formed and
position-consistent board, `movePiece` succeeds; the destination cell holds
the selected piece re-positioned there, crowned exactly when the old flag
was already set or the landing row is the current player's far rank (no
check of the piece's variant), the origin cell is cleared, and every other
cell is untouched. -/
theorem movePiece_commit {s : ContextState} {sp : Piece} {row col : Int}
    (hsel : s.selectedPiece = some sp)
    (hact : s.gameState.gameActive = true)
    (hmem : (s.validMoves.any fun m =>
      decide (m.row = row) && decide (m.col = col)) = true)
    (hWF : BoardWF s.gameState.board)
    (hcons : PositionsConsistent s.gameState.board)
    (hpos : posInBounds sp)
    (hrc : 0 ≤ row ∧ row < 8 ∧ 0 ≤ col ∧ col < 8)
    (hne : ¬ (row = sp.position.row ∧ col = sp.position.col)) :
    ∃ s' mp, movePiece s row col = .ok s' ∧
      mp.position = (⟨row, col⟩ : Square) ∧
      mp.type = sp.type ∧ mp.player = sp.player ∧ mp.id = sp.id ∧
      mp.crowned = (sp.crowned ||
        decide ((s.gameState.currentPlayer = PlayerColor.red ∧ row = 7) ∨
          (s.gameState.currentPlayer = PlayerColor.blue ∧ row = 0))) ∧
      readCell s'.gameState.board row col = .ok (some (some mp)) ∧
      readCell s'.gameState.board sp.position.row sp.position.col =
        .ok (some none) ∧
      (∀ r2 c2 : Int, ¬(r2 = row ∧ c2 = col) →
        ¬(r2 = sp.position.row ∧ c2 = sp.position.col) →
        readCell s'.gameState.board r2 c2 =
          readCell s.gameState.board r2 c2) := by
  obtain ⟨hr0, hr8, hc0, hc8⟩ := hrc
  obtain ⟨hp0, hp8, hq0, hq8⟩ := hpos
  obtain ⟨cap, hcap⟩ :=
    handleCapture_total ⟨sp.position.row, sp.position.col⟩ ⟨row, col⟩ sp hWF
      ⟨hp0, hp8, hq0, hq8⟩ ⟨hr0, hr8, hc0, hc8⟩
  obtain ⟨b1, hb1, hWF1, hb1dest, hb1else⟩ :=
    setCell_spec (none : Cell) hWF hp0 hp8 hq0 hq8
  obtain ⟨mp, hmp⟩ : ∃ mp : Piece,
      (if (s.gameState.currentPlayer = PlayerColor.red ∧ row = 7) ∨
          (s.gameState.currentPlayer = PlayerColor.blue ∧ row = 0) then
        { sp with position := (⟨row, col⟩ : Square), crowned := true }
      else
        { sp with position := (⟨row, col⟩ : Square) }) = mp := ⟨_, rfl⟩
  obtain ⟨b2, hb2, hWF2, hb2dest, hb2else⟩ :=
    setCell_spec (some mp) hWF1 hr0 hr8 hc0 hc8
  have hne2 : ¬ (sp.position.row = row ∧ sp.position.col = col) := by
    intro hx
    exact hne ⟨hx.1.symm, hx.2.symm⟩
  have hmppos : mp.position = (⟨row, col⟩ : Square) := by
    rw [← hmp]
    split <;> rfl
  have hcons2 : PositionsConsistent b2 := by
    intro i j
    unfold cellConsistent
    by_cases hd : ((i : Int) = row ∧ (j : Int) = col)
    · obtain ⟨h1, h2⟩ := hd
      rw [h1, h2, hb2dest]
      simp [hmppos]
    · rw [hb2else _ _ hd]
      by_cases ho : ((i : Int) = sp.position.row ∧ (j : Int) = sp.position.col)
      · obtain ⟨h1, h2⟩ := ho
        rw [h1, h2, hb1dest]
      · rw [hb1else _ _ ho]
        have hcc := hcons i j
        unfold cellConsistent at hcc
        exact hcc
  have hrun : ∃ s2, movePiece s row col = .ok s2 ∧
      s2.gameState.board = b2 := by
    unfold movePiece
    rw [hsel]
    dsimp only
    rw [if_neg (by simp [hact])]
    rw [hmem]
    rw [if_neg (by decide)]
    rw [hcap]
    dsimp only
    rw [hb1]
    dsimp only
    rw [hmp, hb2]
    dsimp only
    rw [checkWinCondition_eq_spec hWF2 hcons2]
    exact ⟨_, rfl, rfl⟩
  obtain ⟨s2, hrun, hboard⟩ := hrun
  refine ⟨s2, mp, hrun, hmppos, ?_, ?_, ?_, ?_, ?_, ?_, ?_⟩
  · rw [← hmp]
    split <;> rfl
  · rw [← hmp]
    split <;> rfl
  · rw [← hmp]
    split <;> rfl
  · rw [← hmp]
    by_cases hcr : (s.gameState.currentPlayer = PlayerColor.red ∧ row = 7) ∨
        (s.gameState.currentPlayer = PlayerColor.blue ∧ row = 0)
    · rw [if_pos hcr]
      simp [hcr]
    · rw [if_neg hcr]
      simp [hcr]
  · rw [hboard]
    exact hb2dest
  · rw [hboard]
    rw [hb2else _ _ hne2]
    exact hb1dest
  · intro r2 c2 h1 h2
    rw [hboard]
    rw [hb2else _ _ h1]
    exact hb1else _ _ h2

/-! ## placePiece -/

theorem placePiece_notPlacement {s : ContextState} (piece : Piece)
    (row col : Int) (h : s.gameState.phase ≠ GamePhase.placement) :
    placePiece s piece row col = .ok s := by
  unfold placePiece
  rw [if_pos h]

/-- In the Placement phase, `placePiece` writes the piece at the named
square unconditionally: no check of emptiness, of rank ownership or of
square colour guards the write. -/
theorem placePiece_commit {s : ContextState} (piece : Piece) {row col : Int}
    (h : s.gameState.phase = GamePhase.placement)
    (hWF : BoardWF s.gameState.board)
    (hr0 : 0 ≤ row) (hr8 : row < 8) (hc0 : 0 ≤ col) (hc8 : col < 8) :
    ∃ s', placePiece s piece row col = .ok s' ∧
      s'.gameState.phase = GamePhase.placement ∧
      readCell s'.gameState.board row col =
        .ok (some (some { piece with position := (⟨row, col⟩ : Square) })) ∧
      ∀ r2 c2 : Int, ¬(r2 = row ∧ c2 = col) →
        readCell s'.gameState.board r2 c2 = readCell s.gameState.board r2 c2 := by
  obtain ⟨b2, hb2, hWF2, hdest, helse⟩ :=
    setCell_spec (some { piece with position := (⟨row, col⟩ : Square) })
      hWF hr0 hr8 hc0 hc8
  have hrun : ∃ s2, placePiece s piece row col = .ok s2 ∧
      s2.gameState.board = b2 ∧ s2.gameState.phase = s.gameState.phase := by
    unfold placePiece
    rw [if_neg (by simp [h])]
    dsimp only
    rw [hb2]
    exact ⟨_, rfl, rfl, rfl⟩
  obtain ⟨s2, hrun, hboard, hphase⟩ := hrun
  refine ⟨s2, hrun, ?_, ?_, ?_⟩
  · rw [hphase, h]
  · rw [hboard]
    exact hdest
  · intro r2 c2 hx
    rw [hboard]
    exact helse _ _ hx

/-! ## Operations that leave the board untouched -/

theorem finishPlacement_board (s : ContextState) :
    (finishPlacement s).gameState.board = s.gameState.board := rfl

theorem deselectPiece_board (s : ContextState) :
    (deselectPiece s).gameState.board = s.gameState.board := rfl

theorem startGame_board (s : ContextState) :
    (startGame s).gameState.board = s.gameState.board := rfl

theorem selectPiece_board {s : ContextState} {piece : Piece}
    {s2 : ContextState} (h : selectPiece s piece = .ok s2) :
    s2.gameState.board = s.gameState.board := by
  unfold selectPiece at h
  split at h
  · cases h
    rfl
  · split at h
    · cases h
    · cases h
      rfl


/-! ## Further helpers for the claim statements -/

theorem isValidDiagonalMove_eq_true_iff (fr toSq : Square) (crowned : Bool)
    (player : PlayerColor) :
    isValidDiagonalMove fr toSq crowned player = true ↔
      ((toSq.row - fr.row).natAbs = (toSq.col - fr.col).natAbs ∧
        (crowned = true ∨
          ¬ ((player = PlayerColor.red ∧ toSq.row - fr.row < 0) ∨
             (player = PlayerColor.blue ∧ 0 < toSq.row - fr.row)))) := by
  unfold isValidDiagonalMove
  dsimp only
  by_cases h1 : (toSq.row - fr.row).natAbs ≠ (toSq.col - fr.col).natAbs
  · rw [if_pos h1]
    constructor
    · intro hfalse
      exact absurd hfalse (by decide)
    · rintro ⟨h, -⟩
      exact absurd h h1
  · rw [if_neg h1]
    push_neg at h1
    cases crowned
    · simp only [Bool.not_false, Bool.true_and]
      by_cases h2 : ((player = PlayerColor.red ∧ toSq.row - fr.row < 0) ∨
          (player = PlayerColor.blue ∧ 0 < toSq.row - fr.row))
      · rw [if_pos (by simpa using h2)]
        constructor
        · intro hfalse
          exact absurd hfalse (by decide)
        · rintro ⟨-, hc | hd⟩
          · exact absurd hc (by decide)
          · exact absurd h2 hd
      · rw [if_neg (by simpa using h2)]
        exact ⟨fun _ => ⟨h1, Or.inr h2⟩, fun _ => rfl⟩
    · simp only [Bool.not_true, Bool.false_and]
      rw [if_neg (by decide)]
      exact ⟨fun _ => ⟨h1, Or.inl (by trivial)⟩, fun _ => rfl⟩

theorem historyOk_of_all {hist : List Move}
    (h : ∀ m ∈ hist, 0 ≤ m.fr.row ∧ m.fr.row < 8) : HistoryOk hist := by
  intro lm hlm
  have hmem : lm ∈ hist := by
    have hx : lm ∈ hist.getLast? := Option.mem_def.mpr hlm
    obtain ⟨hne, rfl⟩ := List.mem_getLast?_eq_getLast hx
    exact List.getLast_mem hne
  exact h lm hmem

/-! ## Concrete material for witnesses and counterexamples -/

/-- Build a one-field-at-a-time piece. -/
def pieceAt (t : PieceType) (pl : PlayerColor) (cr : Bool) (r c : Int) :
    Piece :=
  ⟨"p", t, pl, cr, ⟨r, c⟩⟩

/-- Drop a piece on a board at its stored position. -/
def placeAt (b : BoardArr) (p : Piece) : BoardArr :=
  match setCell b p.position.row p.position.col (some p) with
  | .ok b2 => b2
  | .error _ => b

/-- A quiescent game state used as the base of the concrete examples. -/
def baseGS : GameState :=
  ⟨GamePhase.menu, PlayerColor.red, emptyBoard, ⟨0, 0⟩, ⟨[], []⟩, [],
    ⟨0, 0⟩, false⟩


def exN1 : Piece := pieceAt PieceType.normal PlayerColor.red false 2 2

def exB1 : BoardArr := placeAt emptyBoard exN1

def cPan : Piece := pieceAt PieceType.pancake PlayerColor.red false 1 1

def cb1 : BoardArr := placeAt emptyBoard cPan

/-! ## The claims -/

/-- C1: the claimed equivalence between the Move Validator and the Move
Generator holds in one direction for every variant — every destination the
validator accepts (from the piece's own position, on a well-formed board,
with a history whose last origin row is on the board) is in the generator's
output — and as a full equivalence for the normal variant.  The equivalence
does NOT hold for every variant: see `C1_counterexample` (the pancake
generator lists backward diagonal steps that the validator rejects; the
bagel generator's history-based special square is similarly invisible to
the validator). -/
theorem C1_validator_vs_generator {b : BoardArr} {piece : Piece}
    {toSq : Square} {hist : List Move}
    (hWF : BoardWF b) (hpos : posInBounds piece) (hhist : HistoryOk hist) :
    (isValidMove b piece.position toSq piece = .ok true →
      moveListContains (generatorMoves b hist piece) toSq = true) ∧
    (piece.type = PieceType.normal →
      (isValidMove b piece.position toSq piece = .ok true ↔
        moveListContains (generatorMoves b hist piece) toSq = true)) := by
  constructor
  · intro h
    obtain ⟨ms, hms, hmem⟩ := isValidMove_sound hWF hpos hhist h
    exact moveListContains_iff.mpr ⟨ms, hms, hmem⟩
  · intro htyp
    constructor
    · intro h
      obtain ⟨ms, hms, hmem⟩ := isValidMove_sound hWF hpos hhist h
      exact moveListContains_iff.mpr ⟨ms, hms, hmem⟩
    · intro h
      obtain ⟨ms, hms, hmem⟩ := moveListContains_iff.mp h
      have hgen : generatorMoves b hist piece = getNormalMoves b piece := by
        unfold generatorMoves
        rw [htyp]
      rw [hgen] at hms
      exact getNormalMoves_mem_valid hWF hpos htyp hms hmem

theorem C1_validator_vs_generator_witness :
    (isValidMove exB1 exN1.position ⟨3, 3⟩ exN1 = .ok true →
      moveListContains (generatorMoves exB1 [] exN1) ⟨3, 3⟩ = true) ∧
    (exN1.type = PieceType.normal →
      (isValidMove exB1 exN1.position ⟨3, 3⟩ exN1 = .ok true ↔
        moveListContains (generatorMoves exB1 [] exN1) ⟨3, 3⟩ = true)) :=
  C1_validator_vs_generator (by decide) (by decide) historyOk_nil

/-- C1 counterexample: a red uncrowned pancake at (1,1) on an otherwise
empty board.  `getPancakeMoves` lists the backward diagonal step (0,0), but
`isValidMove` answers `false` for that destination, so validator and
generator are not equivalent for every variant. -/
theorem C1_counterexample :
    moveListContains (generatorMoves cb1 [] cPan) ⟨0, 0⟩ = true ∧
    isValidMove cb1 cPan.position ⟨0, 0⟩ cPan = .ok false :=
  ⟨rfl, rfl⟩

/-- C2: the no-throw claim is false — it is a bug in the code.  Whenever
the destination row is off the board, `isValidMove` dereferences
`board[to.row][to.col]` in its emptiness check BEFORE the bounds check on
lines 15-17 of src/gameLogic.ts can reject the square, and
`undefined[to.col]` throws a TypeError (modelled as `.error ()`). -/
theorem C2_isValidMove_throws {b : BoardArr} (fr toSq : Square)
    (piece : Piece) (hWF : BoardWF b) (hrow : toSq.row < 0 ∨ 7 < toSq.row) :
    isValidMove b fr toSq piece = .error () := by
  have hl : b.length = 8 := hWF.1
  have hread : readCell b toSq.row toSq.col = .error () := by
    unfold readCell jsIndex
    rcases hrow with h | h
    · rw [if_pos h]
    · rw [if_neg (by omega)]
      rw [List.get?_eq_none.mpr (by omega)]
  unfold isValidMove
  rw [hread]

theorem C2_isValidMove_throws_witness :
    isValidMove exB1 ⟨2, 2⟩ ⟨-1, 1⟩ exN1 = .error () :=
  C2_isValidMove_throws ⟨2, 2⟩ ⟨-1, 1⟩ exN1 (by decide) (by decide)

/-- C2 counterexample to the spec sentence: a concrete syntactically valid
board/piece/squares combination (destination row 8) on which `isValidMove`
throws instead of answering through the boolean channel. -/
theorem C2_counterexample :
    isValidMove exB1 ⟨2, 2⟩ ⟨8, 3⟩ exN1 = .error () := rfl

/-- C3: on a well-formed board, every square produced by `getNormalMoves`
for an on-board piece is empty, lies within 0..7 on both axes, and is a
one-step diagonal in a permitted direction or a two-step diagonal jump in a
permitted direction over an opposing midpoint piece (`normalGeom`). -/
theorem C3_getNormalMoves_sound {b : BoardArr} {piece : Piece}
    (hWF : BoardWF b) (hpos : posInBounds piece) :
    ∃ ms, getNormalMoves b piece = .ok ms ∧
      ∀ sq ∈ ms,
        readCell b sq.row sq.col = .ok (some none) ∧
        inBounds sq.row sq.col = true ∧
        normalGeom b piece sq := by
  obtain ⟨ms, hms, hchar⟩ := getNormalMoves_spec hWF hpos
  refine ⟨ms, hms, ?_⟩
  intro sq hsq
  obtain ⟨hg, hin, hcell⟩ :=
    (normalCands_iff_geom hWF hpos sq).mp ((hchar sq).mp hsq)
  exact ⟨hcell, hin, hg⟩

theorem C3_getNormalMoves_sound_witness :
    ∃ ms, getNormalMoves exB1 exN1 = .ok ms ∧
      ∀ sq ∈ ms,
        readCell exB1 sq.row sq.col = .ok (some none) ∧
        inBounds sq.row sq.col = true ∧
        normalGeom exB1 exN1 sq :=
  C3_getNormalMoves_sound (by decide) (by decide)


def p4a : Piece := pieceAt PieceType.normal PlayerColor.red false 2 2

def p4b : Piece := pieceAt PieceType.normal PlayerColor.blue false 3 3

def b4 : BoardArr := placeAt (placeAt emptyBoard p4a) p4b

/-- C4: on a well-formed board with both squares on the grid,
`handleCapture` reports a captured piece exactly when the move is a
qualifying jump (row- and column-distance 2 for any variant, or row-distance
0 and column-distance 2 for a pancake) and the midpoint square holds an
opposing piece; the reported piece and square are that midpoint occupant
and midpoint.  Over an empty or friendly midpoint, or any other geometry,
no capture is reported. -/
theorem C4_handleCapture_iff {b : BoardArr} (fr toSq : Square)
    (piece : Piece) (hWF : BoardWF b)
    (hf : 0 ≤ fr.row ∧ fr.row < 8 ∧ 0 ≤ fr.col ∧ fr.col < 8)
    (ht : 0 ≤ toSq.row ∧ toSq.row < 8 ∧ 0 ≤ toSq.col ∧ toSq.col < 8) :
    ∃ res, handleCapture b fr toSq piece = .ok res ∧
      (res.capturedPiece.isSome = true ↔
        (qualifyingJump piece fr toSq ∧
          ∃ q, readCell b (fr.row + (toSq.row - fr.row) / 2)
              (fr.col + (toSq.col - fr.col) / 2) = .ok (some (some q)) ∧
            q.player ≠ piece.player)) ∧
      (∀ q, res.capturedPiece = some q →
        readCell b (fr.row + (toSq.row - fr.row) / 2)
            (fr.col + (toSq.col - fr.col) / 2) = .ok (some (some q)) ∧
          q.player ≠ piece.player ∧
          res.capturedSquare = some ⟨fr.row + (toSq.row - fr.row) / 2,
            fr.col + (toSq.col - fr.col) / 2⟩) :=
  handleCapture_spec fr toSq piece hWF hf ht

theorem C4_handleCapture_iff_witness :
    ∃ res, handleCapture b4 ⟨2, 2⟩ ⟨4, 4⟩ p4a = .ok res ∧
      (res.capturedPiece.isSome = true ↔
        (qualifyingJump p4a ⟨2, 2⟩ ⟨4, 4⟩ ∧
          ∃ q, readCell b4 ((2 : Int) + ((4 : Int) - 2) / 2)
              ((2 : Int) + ((4 : Int) - 2) / 2) = .ok (some (some q)) ∧
            q.player ≠ p4a.player)) ∧
      (∀ q, res.capturedPiece = some q →
        readCell b4 ((2 : Int) + ((4 : Int) - 2) / 2)
            ((2 : Int) + ((4 : Int) - 2) / 2) = .ok (some (some q)) ∧
          q.player ≠ p4a.player ∧
          res.capturedSquare = some ⟨(2 : Int) + ((4 : Int) - 2) / 2,
            (2 : Int) + ((4 : Int) - 2) / 2⟩) :=
  C4_handleCapture_iff ⟨2, 2⟩ ⟨4, 4⟩ p4a (by decide) (by decide) (by decide)

/-- C5: on a well-formed, position-consistent board `checkWinCondition`
returns exactly the spec-side verdict: a zero piece count hands the win to
the other player before any move-availability scan runs (red's count is
consulted first), and otherwise the scan's verdict `winResultOf` gives the
win to the opponent of a player with no move among all their pieces, or
game-not-over when both players still have moves. -/
theorem C5_checkWinCondition {b : BoardArr} {counts : PlayerRec Int}
    (hWF : BoardWF b) (hcons : PositionsConsistent b) :
    checkWinCondition b counts = .ok (checkWinConditionSpec b counts) ∧
    (counts.red = 0 →
      checkWinConditionSpec b counts = ⟨true, some PlayerColor.blue⟩) ∧
    (counts.red ≠ 0 → counts.blue = 0 →
      checkWinConditionSpec b counts = ⟨true, some PlayerColor.red⟩) ∧
    (counts.red ≠ 0 → counts.blue ≠ 0 →
      checkWinConditionSpec b counts =
        winResultOf (playerHasAnyMove b PlayerColor.red)
          (playerHasAnyMove b PlayerColor.blue)) := by
  refine ⟨checkWinCondition_eq_spec hWF hcons, ?_, ?_, ?_⟩
  · intro h
    unfold checkWinConditionSpec
    rw [if_pos h]
  · intro h1 h2
    unfold checkWinConditionSpec
    rw [if_neg h1, if_pos h2]
  · intro h1 h2
    unfold checkWinConditionSpec
    rw [if_neg h1, if_neg h2]

theorem C5_checkWinCondition_witness :
    checkWinCondition exB1 (⟨12, 12⟩ : PlayerRec Int) =
      .ok (checkWinConditionSpec exB1 ⟨12, 12⟩) ∧
    ((⟨12, 12⟩ : PlayerRec Int).red = 0 →
      checkWinConditionSpec exB1 ⟨12, 12⟩ = ⟨true, some PlayerColor.blue⟩) ∧
    ((⟨12, 12⟩ : PlayerRec Int).red ≠ 0 →
      (⟨12, 12⟩ : PlayerRec Int).blue = 0 →
      checkWinConditionSpec exB1 ⟨12, 12⟩ = ⟨true, some PlayerColor.red⟩) ∧
    ((⟨12, 12⟩ : PlayerRec Int).red ≠ 0 →
      (⟨12, 12⟩ : PlayerRec Int).blue ≠ 0 →
      checkWinConditionSpec exB1 ⟨12, 12⟩ =
        winResultOf (playerHasAnyMove exB1 PlayerColor.red)
          (playerHasAnyMove exB1 PlayerColor.blue)) :=
  C5_checkWinCondition (by decide) (by decide)

def exDraftBad : ContextState :=
  ⟨baseGS, none, [],
    ⟨[⟨PieceType.normal, 5, 12⟩], [⟨PieceType.normal, 12, 12⟩]⟩⟩

def exDraftGood : ContextState :=
  ⟨baseGS, none, [],
    ⟨[⟨PieceType.normal, 12, 12⟩], [⟨PieceType.normal, 12, 12⟩]⟩⟩

/-- C6: rejected commands leave the state untouched.  `finishDraft` with
either roster total different from 12 returns the state unchanged (in
particular the phase stays whatever it was, so a Draft-phase state stays in
Draft), and moves to the Placement phase when both totals are 12;
`movePiece` with no selected piece, or with the game inactive, or with a
destination absent from the selected piece's valid-move list, returns the
state unchanged. -/
theorem C6_rejected_commands (s : ContextState) (row col : Int) :
    ((draftTotal s.pieceSelections.red ≠ TOTAL_PIECES_PER_PLAYER ∨
        draftTotal s.pieceSelections.blue ≠ TOTAL_PIECES_PER_PLAYER) →
      finishDraft s = s) ∧
    (draftTotal s.pieceSelections.red = TOTAL_PIECES_PER_PLAYER →
      draftTotal s.pieceSelections.blue = TOTAL_PIECES_PER_PLAYER →
      (finishDraft s).gameState.phase = GamePhase.placement) ∧
    (s.selectedPiece = none → movePiece s row col = .ok s) ∧
    (∀ sp, s.selectedPiece = some sp → s.gameState.gameActive = false →
      movePiece s row col = .ok s) ∧
    (∀ sp, s.selectedPiece = some sp → s.gameState.gameActive = true →
      (s.validMoves.any fun m =>
        decide (m.row = row) && decide (m.col = col)) = false →
      movePiece s row col = .ok s) := by
  refine ⟨?_, ?_, ?_, ?_, ?_⟩
  · intro h
    exact finishDraft_blocked h
  · intro hr hb
    exact finishDraft_unblocked hr hb
  · intro h
    exact movePiece_noSelection row col h
  · intro sp hsel hact
    exact movePiece_inactive row col hsel hact
  · intro sp hsel hact hmem
    exact movePiece_notListed row col hsel hact hmem

theorem C6_rejected_commands_witness :
    finishDraft exDraftBad = exDraftBad ∧
    (finishDraft exDraftGood).gameState.phase = GamePhase.placement ∧
    movePiece exDraftBad 3 3 = .ok exDraftBad :=
  ⟨(C6_rejected_commands exDraftBad 3 3).1 (by decide),
   (C6_rejected_commands exDraftGood 3 3).2.1 (by decide) (by decide),
   (C6_rejected_commands exDraftBad 3 3).2.2.1 (by decide)⟩


/-- C7: `getBagelMoves` is the normal moves followed by the conditional
special square, and the special square appears exactly when the last
recorded move was the opponent's, its origin is diagonally aligned with the
bagel in a direction the bagel may move, and that origin is currently
empty.  Contrary to the claim, the reachability test is NOT limited to one
step for a non-crowned bagel: `isValidDiagonalMove` accepts any diagonal
distance (only the direction is restricted while uncrowned) — see
`C7_counterexample`. -/
theorem C7_getBagelMoves {b : BoardArr} {piece : Piece} {hist : List Move}
    (hWF : BoardWF b) (hpos : posInBounds piece) (hhist : HistoryOk hist) :
    ∃ nm, getNormalMoves b piece = .ok nm ∧
      getBagelMoves b piece hist = .ok (nm ++ bagelSpecial b piece hist) ∧
      (hist.getLast? = none → bagelSpecial b piece hist = []) ∧
      (∀ lm, hist.getLast? = some lm →
        (bagelSpecial b piece hist = [] ∨
          bagelSpecial b piece hist = [lm.fr]) ∧
        (bagelSpecial b piece hist = [lm.fr] ↔
          (lm.piece.player ≠ piece.player ∧
            (lm.fr.row - piece.position.row).natAbs =
              (lm.fr.col - piece.position.col).natAbs ∧
            (piece.crowned = true ∨
              ¬ ((piece.player = PlayerColor.red ∧
                    lm.fr.row - piece.position.row < 0) ∨
                 (piece.player = PlayerColor.blue ∧
                    0 < lm.fr.row - piece.position.row))) ∧
            readCell b lm.fr.row lm.fr.col = .ok (some none)))) := by
  obtain ⟨nm, hnm, hbag⟩ := getBagelMoves_spec hWF hpos hhist
  refine ⟨nm, hnm, hbag, ?_, ?_⟩
  · intro hnone
    unfold bagelSpecial
    rw [hnone]
  · intro lm hlm
    unfold bagelSpecial
    rw [hlm]
    dsimp only
    by_cases hpl : lm.piece.player ≠ piece.player
    · rw [if_pos hpl]
      by_cases hdg : isValidDiagonalMove piece.position lm.fr piece.crowned
          piece.player = true
      · rw [if_pos hdg]
        rw [isValidDiagonalMove_eq_true_iff] at hdg
        obtain ⟨hl0, hl8⟩ := hhist lm hlm
        obtain ⟨v, hv⟩ := readCell_rowOk_of_WF hWF lm.fr.col hl0 hl8
        rw [hv]
        cases v with
        | none =>
          refine ⟨Or.inl rfl, ?_, ?_⟩
          · intro hx
            exact absurd hx (by simp)
          · rintro ⟨-, -, -, hr⟩
            exact absurd hr (by simp)
        | some c =>
          cases c with
          | none =>
            refine ⟨Or.inr rfl, ?_, ?_⟩
            · intro hx
              exact ⟨hpl, hdg.1, hdg.2, rfl⟩
            · intro hx
              rfl
          | some p =>
            refine ⟨Or.inl rfl, ?_, ?_⟩
            · intro hx
              exact absurd hx (by simp)
            · rintro ⟨-, -, -, hr⟩
              exact absurd hr (by simp)
      · rw [if_neg hdg]
        refine ⟨Or.inl rfl, ?_, ?_⟩
        · intro hx
          exact absurd hx (by simp)
        · rintro ⟨-, h1, h2, -⟩
          exact absurd ((isValidDiagonalMove_eq_true_iff _ _ _ _).mpr ⟨h1, h2⟩)
            hdg
    · rw [if_neg hpl]
      refine ⟨Or.inl rfl, ?_, ?_⟩
      · intro hx
        exact absurd hx (by simp)
      · rintro ⟨h1, -⟩
        exact absurd h1 hpl

def cBag : Piece := pieceAt PieceType.bagel PlayerColor.red false 0 0

def cb7 : BoardArr := placeAt emptyBoard cBag

def cHist7 : List Move :=
  [⟨pieceAt PieceType.normal PlayerColor.blue false 5 5, ⟨2, 2⟩, ⟨3, 3⟩,
    none⟩]

theorem C7_getBagelMoves_witness :
    ∃ nm, getNormalMoves cb7 cBag = .ok nm ∧
      getBagelMoves cb7 cBag cHist7 = .ok (nm ++ bagelSpecial cb7 cBag cHist7) ∧
      (cHist7.getLast? = none → bagelSpecial cb7 cBag cHist7 = []) ∧
      (∀ lm, cHist7.getLast? = some lm →
        (bagelSpecial cb7 cBag cHist7 = [] ∨
          bagelSpecial cb7 cBag cHist7 = [lm.fr]) ∧
        (bagelSpecial cb7 cBag cHist7 = [lm.fr] ↔
          (lm.piece.player ≠ cBag.player ∧
            (lm.fr.row - cBag.position.row).natAbs =
              (lm.fr.col - cBag.position.col).natAbs ∧
            (cBag.crowned = true ∨
              ¬ ((cBag.player = PlayerColor.red ∧
                    lm.fr.row - cBag.position.row < 0) ∨
                 (cBag.player = PlayerColor.blue ∧
                    0 < lm.fr.row - cBag.position.row))) ∧
            readCell cb7 lm.fr.row lm.fr.col = .ok (some none)))) :=
  C7_getBagelMoves (by decide) (by decide) (historyOk_of_all (by decide))

/-- C7 counterexample: a red, uncrowned bagel at (0,0) whose opponent's
last move originated two diagonal steps away at (2,2).  The special square
(2,2) IS generated, although the claim permits a non-crowned bagel only a
one-step reach. -/
theorem C7_counterexample :
    moveListContains (getBagelMoves cb7 cBag cHist7) ⟨2, 2⟩ = true ∧
    cBag.crowned = false ∧
    ((2 : Int) - cBag.position.row).natAbs = 2 :=
  ⟨rfl, rfl, rfl⟩


/-- C8: contrary to the claim, `placePiece` enforces nothing about the
named square.  Outside the Placement phase the call is a no-op; in the
Placement phase the piece is written at the given on-board square
unconditionally — no emptiness, rank-ownership or dark-square test guards
the write (`C8_counterexample` overwrites an occupied light square in the
wrong player's ranks). -/
theorem C8_placePiece (s : ContextState) (piece : Piece) (row col : Int) :
    (s.gameState.phase ≠ GamePhase.placement →
      placePiece s piece row col = .ok s) ∧
    (s.gameState.phase = GamePhase.placement → BoardWF s.gameState.board →
      0 ≤ row → row < 8 → 0 ≤ col → col < 8 →
      ∃ s2, placePiece s piece row col = .ok s2 ∧
        readCell s2.gameState.board row col =
          .ok (some (some { piece with position := (⟨row, col⟩ : Square) })) ∧
        ∀ r2 c2 : Int, ¬(r2 = row ∧ c2 = col) →
          readCell s2.gameState.board r2 c2 =
            readCell s.gameState.board r2 c2) := by
  refine ⟨fun h => placePiece_notPlacement piece row col h, ?_⟩
  intro h hWF hr0 hr8 hc0 hc8
  obtain ⟨s2, hrun, -, hdest, helse⟩ :=
    placePiece_commit piece h hWF hr0 hr8 hc0 hc8
  exact ⟨s2, hrun, hdest, helse⟩

def exOcc8 : Piece := pieceAt PieceType.normal PlayerColor.red false 0 0

def pBlue8 : Piece := pieceAt PieceType.normal PlayerColor.blue false 7 7

def ex8 : ContextState :=
  ⟨{ baseGS with
      phase := GamePhase.placement
      board := placeAt emptyBoard exOcc8 },
    none, [], ⟨[], []⟩⟩

theorem C8_placePiece_witness :
    ∃ s2, placePiece ex8 pBlue8 0 0 = .ok s2 ∧
      readCell s2.gameState.board 0 0 =
        .ok (some (some { pBlue8 with position := (⟨0, 0⟩ : Square) })) ∧
      ∀ r2 c2 : Int, ¬(r2 = 0 ∧ c2 = 0) →
        readCell s2.gameState.board r2 c2 =
          readCell ex8.gameState.board r2 c2 :=
  (C8_placePiece ex8 pBlue8 0 0).2 (by decide) (by decide) (by decide)
    (by decide) (by decide) (by decide)

/-- C8 counterexample: in the Placement phase a blue piece is placed on
(0,0) — a light square ((0+0) even), outside blue's ranks 5-7, and already
occupied by a red piece — and the write succeeds, overwriting the resident
piece. -/
theorem C8_counterexample :
    ∃ s2, placePiece ex8 pBlue8 0 0 = .ok s2 ∧
      readCell ex8.gameState.board 0 0 = .ok (some (some exOcc8)) ∧
      readCell s2.gameState.board 0 0 =
        .ok (some (some { pBlue8 with position := (⟨0, 0⟩ : Square) })) := by
  refine ⟨_, rfl, rfl, rfl⟩

/-- C9: what `getNextMove` actually guarantees.  It never errors on a
well-formed, position-consistent state; it returns none whenever the
current player is not blue (the AI's colour); when it is blue's turn, it
returns none exactly when the AI's own validator-keyed move collection
(`collectMoves` over `getValidMovesForPieceAI`, built on `isValidMove`) is
empty; and any returned move belongs to a blue piece with a
generator-listed destination.  The claim's "none only when no piece has a
legal move" is NOT the actual trigger: the validator-keyed collection can
be empty while the Move Generator still lists legal moves
(`C9_counterexample`). -/
theorem C9_getNextMove (difficulty : AIDifficulty) (rand : Nat)
    (gs : GameState) (hWF : BoardWF gs.board)
    (hcons : PositionsConsistent gs.board)
    (hhist : HistoryOk gs.moveHistory) :
    ∃ pairs,
      collectMoves gs.board (getAIPieces gs.board PlayerColor.blue) =
        .ok pairs ∧
      ∃ res, getNextMove difficulty rand gs = .ok res ∧
        (gs.currentPlayer ≠ PlayerColor.blue → res = none) ∧
        (gs.currentPlayer = PlayerColor.blue → (res = none ↔ pairs = [])) ∧
        (∀ m, res = some m →
          m.piece.player = PlayerColor.blue ∧
          moveListContains (generatorMoves gs.board gs.moveHistory m.piece)
            m.toSq = true) :=
  getNextMove_spec difficulty rand gs hWF hcons hhist

def gs9w : GameState := { baseGS with currentPlayer := PlayerColor.blue }

theorem C9_getNextMove_witness :
    ∃ pairs,
      collectMoves gs9w.board (getAIPieces gs9w.board PlayerColor.blue) =
        .ok pairs ∧
      ∃ res, getNextMove AIDifficulty.easy 0 gs9w = .ok res ∧
        (gs9w.currentPlayer ≠ PlayerColor.blue → res = none) ∧
        (gs9w.currentPlayer = PlayerColor.blue → (res = none ↔ pairs = [])) ∧
        (∀ m, res = some m →
          m.piece.player = PlayerColor.blue ∧
          moveListContains (generatorMoves gs9w.board gs9w.moveHistory m.piece)
            m.toSq = true) :=
  C9_getNextMove AIDifficulty.easy 0 gs9w (by decide) (by decide) historyOk_nil

def pan9 : Piece := pieceAt PieceType.pancake PlayerColor.blue false 0 0

def n9 : Piece := pieceAt PieceType.normal PlayerColor.blue false 0 1

def gs9 : GameState :=
  { baseGS with
      phase := GamePhase.play
      currentPlayer := PlayerColor.blue
      board := placeAt (placeAt emptyBoard pan9) n9
      gameActive := true }

/-- C9 counterexample: it is blue's turn and blue's pancake at (0,0) has
the generator-listed move (1,1), yet all three difficulty tiers return
none, because the AI filters candidate squares through `isValidMove`,
which rejects every pancake move the validator does not know (here the
forward-for-red diagonal (1,1)). -/
theorem C9_counterexample :
    getNextMove AIDifficulty.easy 0 gs9 = .ok none ∧
    getNextMove AIDifficulty.medium 0 gs9 = .ok none ∧
    getNextMove AIDifficulty.hard 0 gs9 = .ok none ∧
    gs9.currentPlayer = PlayerColor.blue ∧
    readCell gs9.board 0 0 = .ok (some (some pan9)) ∧
    moveListContains (generatorMoves gs9.board gs9.moveHistory pan9) ⟨1, 1⟩ =
      true :=
  ⟨rfl, rfl, rfl, rfl, rfl, rfl⟩

/-- C10: in a committed `movePiece`, whatever the selected piece's variant
(the crowning line never inspects `piece.type`), the piece written at the
destination keeps its variant and carries
`crowned = old || (landing on row 7 as red, or row 0 as blue)`; in
particular a crowned flag is never reset by a committed move, every other
board cell is untouched, and the in-game operations `selectPiece`,
`deselectPiece` and `finishPlacement` never write the board at all. -/
theorem C10_crowning {s : ContextState} {sp : Piece} {row col : Int}
    (hsel : s.selectedPiece = some sp)
    (hact : s.gameState.gameActive = true)
    (hmem : (s.validMoves.any fun m =>
      decide (m.row = row) && decide (m.col = col)) = true)
    (hWF : BoardWF s.gameState.board)
    (hcons : PositionsConsistent s.gameState.board)
    (hpos : posInBounds sp)
    (hrc : 0 ≤ row ∧ row < 8 ∧ 0 ≤ col ∧ col < 8)
    (hne : ¬ (row = sp.position.row ∧ col = sp.position.col)) :
    (∃ s2 mp, movePiece s row col = .ok s2 ∧
      mp.type = sp.type ∧
      mp.crowned = (sp.crowned ||
        decide ((s.gameState.currentPlayer = PlayerColor.red ∧ row = 7) ∨
          (s.gameState.currentPlayer = PlayerColor.blue ∧ row = 0))) ∧
      (sp.crowned = true → mp.crowned = true) ∧
      readCell s2.gameState.board row col = .ok (some (some mp)) ∧
      (∀ r2 c2 : Int, ¬(r2 = row ∧ c2 = col) →
        ¬(r2 = sp.position.row ∧ c2 = sp.position.col) →
        readCell s2.gameState.board r2 c2 =
          readCell s.gameState.board r2 c2)) ∧
    (∀ piece s2, selectPiece s piece = .ok s2 →
      s2.gameState.board = s.gameState.board) ∧
    (deselectPiece s).gameState.board = s.gameState.board ∧
    (finishPlacement s).gameState.board = s.gameState.board := by
  refine ⟨?_, fun piece s2 h => selectPiece_board h, deselectPiece_board s,
    finishPlacement_board s⟩
  obtain ⟨s2, mp, hrun, hmpos, htype, hplayer, hid, hcrown, hdest, horig,
    helse⟩ := movePiece_commit hsel hact hmem hWF hcons hpos hrc hne
  refine ⟨s2, mp, hrun, htype, hcrown, ?_, hdest, helse⟩
  intro hc
  rw [hcrown, hc]
  simp

def wsp : Piece := pieceAt PieceType.bagel PlayerColor.red false 6 6

def wstate : ContextState :=
  ⟨{ baseGS with
      phase := GamePhase.play
      currentPlayer := PlayerColor.red
      board := placeAt emptyBoard wsp
      gameActive := true },
    some wsp, [⟨7, 7⟩], ⟨[], []⟩⟩

theorem C10_crowning_witness :
    (∃ s2 mp, movePiece wstate 7 7 = .ok s2 ∧
      mp.type = wsp.type ∧
      mp.crowned = (wsp.crowned ||
        decide ((wstate.gameState.currentPlayer = PlayerColor.red ∧
            (7 : Int) = 7) ∨
          (wstate.gameState.currentPlayer = PlayerColor.blue ∧
            (7 : Int) = 0))) ∧
      (wsp.crowned = true → mp.crowned = true) ∧
      readCell s2.gameState.board 7 7 = .ok (some (some mp)) ∧
      (∀ r2 c2 : Int, ¬(r2 = 7 ∧ c2 = 7) →
        ¬(r2 = wsp.position.row ∧ c2 = wsp.position.col) →
        readCell s2.gameState.board r2 c2 =
          readCell wstate.gameState.board r2 c2)) ∧
    (∀ piece s2, selectPiece wstate piece = .ok s2 →
      s2.gameState.board = wstate.gameState.board) ∧
    (deselectPiece wstate).gameState.board = wstate.gameState.board ∧
    (finishPlacement wstate).gameState.board = wstate.gameState.board :=
  C10_crowning (by decide) (by decide) (by decide) (by decide) (by decide)
    (by decide) (by decide) (by decide)

end Checkers2
